import Mathlib

set_option maxRecDepth 10000

/-!
# Stone Verified Ledger — verification of the canonicalization / signing /
# verification / storage core

Shallow embedding of the repository's JavaScript sources:

* `src/scripts/sign-and-append.mjs` — namespace `SignAppend`
  (canonicalization with the extended 40-name field order, key handling,
  the report-hash auto-fill, and the three store writes);
* `src/unnamed/part_000` — an alternate sign-and-append script, namespace
  `SignLegacy` (minimal 10-name field order, 64-byte-only private keys);
* `src/unnamed/part_001` — `scripts/verify.mjs`, namespace `Verify`
  (minimal 10-name field order, registry resolution, verdict reporting).

Entries are modelled as insertion-ordered association lists of JSON values,
mirroring JavaScript object property order; `JSON.stringify` is modelled by
an explicit renderer with JS string escaping.  The external `tweetnacl`
Ed25519 interface is modelled by an idealized detached-signature scheme: a
signature is the signed message together with the signer's public key, and
verification recomputes both.  SHA-256 (node's `crypto.createHash('sha256')`)
is implemented in full and checked against the standard test vectors below.
-/

namespace StoneLedger

/-- JSON-like values as they occur in ledger entries.  Arrays in this
repository are arrays of strings (tags, related ids, …); the only object
field is the `scores` mapping of category name to integer.  `sig` stands for
the Base64 signature string attached on sealing: it is kept abstract so that
the idealized signature model can be carried through serialization. -/
inductive JVal where
  | null
  | str (s : String)
  | num (n : Int)
  | arr (xs : List String)
  | obj (kvs : List (String × Int))
  | sig (m : String) (pk : List Nat)
deriving DecidableEq, Repr

/-- JavaScript truthiness for the values of `JVal` (`undefined` is the
absence of a field, i.e. `Option.none` at the entry level). -/
def truthy : JVal → Bool
  | .null => false
  | .str s => s ≠ ""
  | .num n => n ≠ 0
  | .arr _ => true
  | .obj _ => true
  | .sig _ _ => true

/-- A logical entry: JavaScript object = insertion-ordered field list. -/
abbrev Entry := List (String × JVal)

/-- JavaScript property read `entry[f]` (objects have unique keys; on the
list model the first binding wins). -/
def getField : Entry → String → Option JVal
  | [], _ => none
  | (k, v) :: rest, f => if k = f then some v else getField rest f

/-- JavaScript property assignment `entry[f] = v`: updates the value in
place if the key exists, otherwise appends the key at the end. -/
def setField : Entry → String → JVal → Entry
  | [], f, v => [(f, v)]
  | (k, w) :: rest, f, v =>
      if k = f then (k, v) :: rest else (k, w) :: setField rest f v

/-- JavaScript rest-destructuring `const {signature, ...rest} = entry`. -/
def removeField (e : Entry) (f : String) : Entry :=
  e.filter (fun kv => kv.1 ≠ f)

def truthyOpt : Option JVal → Bool
  | none => false
  | some v => truthy v

/-- JavaScript string coercion of a property value (template literals and
object property keys).  `undefined` renders as `"undefined"`. -/
def jsToString : Option JVal → String
  | none => "undefined"
  | some .null => "null"
  | some (.str s) => s
  | some (.num n) => toString n
  | some (.arr xs) => String.intercalate "," xs
  | some (.obj _) => "[object Object]"
  | some (.sig _ _) => "[signature]"

/-! ## JSON.stringify -/

def hexDigit (n : Nat) : Char :=
  if n < 10 then Char.ofNat (48 + n) else Char.ofNat (87 + n)

/-- JS `JSON.stringify` escaping of a single character: `"` and `\` get a
backslash, the five short control escapes are used, any other control
character becomes `\u00XX`, everything else is copied verbatim. -/
def escapeChar (c : Char) : List Char :=
  if c = '"' then ['\\', '"']
  else if c = '\\' then ['\\', '\\']
  else if c = '\n' then ['\\', 'n']
  else if c = '\t' then ['\\', 't']
  else if c = '\r' then ['\\', 'r']
  else if c.toNat = 8 then ['\\', 'b']
  else if c.toNat = 12 then ['\\', 'f']
  else if c.toNat < 32 then
    ['\\', 'u', '0', '0', hexDigit (c.toNat / 16), hexDigit (c.toNat % 16)]
  else [c]

def escapeList : List Char → List Char
  | [] => []
  | c :: rest => escapeChar c ++ escapeList rest

/-- A JSON string literal: `"` + escaped content + `"`. -/
def quoteStr (s : String) : String :=
  ⟨'"' :: escapeList s.data ++ ['"']⟩

/-- Comma-joining of already-rendered JSON pieces (`JSON.stringify` with no
space argument inserts no whitespace). -/
def joinComma : List String → String
  | [] => ""
  | [x] => x
  | x :: xs => x ++ "," ++ joinComma xs

/-- The Base64 rendering of a detached signature, idealized: an injective
textual encoding of the modelled signature value. -/
def sigEncode (m : String) (pk : List Nat) : String :=
  "ed25519(" ++ m ++ ")" ++ String.intercalate "." (pk.map toString)

def renderJVal : JVal → String
  | .null => "null"
  | .str s => quoteStr s
  | .num n => toString n
  | .arr xs => "[" ++ joinComma (xs.map quoteStr) ++ "]"
  | .obj kvs =>
      "\x7b" ++ joinComma (kvs.map (fun kv => quoteStr kv.1 ++ ":" ++ toString kv.2)) ++ "\x7d"
  | .sig m pk => quoteStr (sigEncode m pk)

/-- `JSON.stringify` of an object, properties in insertion order. -/
def stringifyObj (kvs : List (String × JVal)) : String :=
  "\x7b" ++ joinComma (kvs.map (fun kv => quoteStr kv.1 ++ ":" ++ renderJVal kv.2)) ++ "\x7d"

/-! ## The scores mapping: `Object.keys(scores).sort()` then rebuild -/

/-- First-match lookup in a scores object (JS property read). -/
def getScore : List (String × Int) → String → Int
  | [], _ => 0
  | (k, n) :: rest, f => if k = f then n else getScore rest f

/-- Lexicographic (code-point) comparison of character lists — the order
JavaScript's default `sort()` applies to strings. -/
def lexLt : List Char → List Char → Bool
  | [], [] => false
  | [], _ :: _ => true
  | _ :: _, [] => false
  | c :: cs, d :: ds =>
      if c.toNat < d.toNat then true
      else if d.toNat < c.toNat then false
      else lexLt cs ds

/-- `a ≤ b` in JavaScript string comparison order. -/
def jsLe (a b : String) : Prop := lexLt b.data a.data = false

instance : DecidableRel jsLe := fun a b =>
  instDecidableEqBool (lexLt b.data a.data) false

/-- `Object.keys(scores).sort()` — JS default sort on strings is
lexicographic by code points. -/
def sortedKeys (ks : List String) : List String :=
  List.insertionSort jsLe ks

/-- `const sorted = {}; keys.sort().forEach(k => sorted[k] = scores[k])`. -/
def sortPairs (kvs : List (String × Int)) : List (String × Int) :=
  (sortedKeys (kvs.map Prod.fst)).map (fun k => (k, getScore kvs k))

/-- The scores rewrite applied to a field value.  JavaScript would apply
`Object.keys` to any truthy value; on schema-conforming entries `scores` is
an object, and the model leaves non-object values unchanged. -/
def sortScoresVal : JVal → JVal
  | .obj kvs => .obj (sortPairs kvs)
  | v => v

/-! ## Canonicalizers -/

/-! ## SHA-256 (node `crypto.createHash('sha256')`), full implementation -/

namespace SHA256

def w32 : Nat := 4294967296

def rotr (n x : Nat) : Nat :=
  (x / 2 ^ n + x % 2 ^ n * 2 ^ (32 - n)) % w32

def shr (n x : Nat) : Nat := x / 2 ^ n

/-- Bitwise complement on 32 bits. -/
def bnot (x : Nat) : Nat := 4294967295 - x % w32

def add32 (x y : Nat) : Nat := (x + y) % w32

def K : List Nat :=
  [1116352408, 1899447441, 3049323471, 3921009573,
   961987163, 1508970993, 2453635748, 2870763221,
   3624381080, 310598401, 607225278, 1426881987,
   1925078388, 2162078206, 2614888103, 3248222580,
   3835390401, 4022224774, 264347078, 604807628,
   770255983, 1249150122, 1555081692, 1996064986,
   2554220882, 2821834349, 2952996808, 3210313671,
   3336571891, 3584528711, 113926993, 338241895,
   666307205, 773529912, 1294757372, 1396182291,
   1695183700, 1986661051, 2177026350, 2456956037,
   2730485921, 2820302411, 3259730800, 3345764771,
   3516065817, 3600352804, 4094571909, 275423344,
   430227734, 506948616, 659060556, 883997877,
   958139571, 1322822218, 1537002063, 1747873779,
   1955562222, 2024104815, 2227730452, 2361852424,
   2428436474, 2756734187, 3204031479, 3329325298]

def H0 : List Nat :=
  [1779033703, 3144134277, 1013904242, 2773480762,
   1359893119, 2600822924, 528734635, 1541459225]

def smallSigma0 (x : Nat) : Nat := (rotr 7 x) ^^^ (rotr 18 x) ^^^ (shr 3 x)
def smallSigma1 (x : Nat) : Nat := (rotr 17 x) ^^^ (rotr 19 x) ^^^ (shr 10 x)
def bigSigma0 (x : Nat) : Nat := (rotr 2 x) ^^^ (rotr 13 x) ^^^ (rotr 22 x)
def bigSigma1 (x : Nat) : Nat := (rotr 6 x) ^^^ (rotr 11 x) ^^^ (rotr 25 x)
def chF (x y z : Nat) : Nat := ((x &&& y) ^^^ (bnot x &&& z)) % w32
def majF (x y z : Nat) : Nat := (x &&& y) ^^^ (x &&& z) ^^^ (y &&& z)

/-- Message padding: `1` bit, zeros, 64-bit big-endian bit length. -/
def pad (msg : List Nat) : List Nat :=
  let len := msg.length
  let zeros := (64 - (len + 9) % 64) % 64
  let bitLen := len * 8
  msg ++ [0x80] ++ List.replicate zeros 0 ++
    [bitLen / 2 ^ 56 % 256, bitLen / 2 ^ 48 % 256, bitLen / 2 ^ 40 % 256,
     bitLen / 2 ^ 32 % 256, bitLen / 2 ^ 24 % 256, bitLen / 2 ^ 16 % 256,
     bitLen / 2 ^ 8 % 256, bitLen % 256]

/-- Big-endian 32-bit words from bytes. -/
def toWords : List Nat → List Nat
  | a :: b :: c :: d :: rest => (a * 16777216 + b * 65536 + c * 256 + d) :: toWords rest
  | _ => []

/-- Message-schedule extension from 16 to 64 words. -/
def extend (ws : List Nat) : Nat → List Nat
  | 0 => ws
  | n + 1 =>
      let ws' := extend ws n
      let i := ws'.length
      ws' ++ [add32 (add32 (ws'.getD (i - 16) 0) (smallSigma0 (ws'.getD (i - 15) 0)))
                (add32 (ws'.getD (i - 7) 0) (smallSigma1 (ws'.getD (i - 2) 0)))]

/-- One round of the compression function. -/
def round (st : List Nat) (kw : Nat × Nat) : List Nat :=
  match st with
  | [a, b, c, d, e, f, g, h] =>
      let t1 := add32 (add32 (add32 h (bigSigma1 e)) (add32 (chF e f g) kw.1)) kw.2
      let t2 := add32 (bigSigma0 a) (majF a b c)
      [add32 t1 t2, a, b, c, add32 d t1, e, f, g]
  | st => st

/-- Compress one 64-byte block into the running hash state. -/
def compress (h : List Nat) (block : List Nat) : List Nat :=
  let ws := extend (toWords block) 48
  let st := (K.zip ws).foldl round h
  (h.zip st).map (fun p => add32 p.1 p.2)

/-- Split into 64-byte blocks; the fuel argument (an upper bound on the
number of blocks, kept structural so that the kernel can evaluate) is the
byte count. -/
def chunksAux : Nat → List Nat → List (List Nat)
  | _, [] => []
  | 0, _ => []
  | n + 1, b :: bytes => (b :: bytes).take 64 :: chunksAux n ((b :: bytes).drop 64)

def chunks (bytes : List Nat) : List (List Nat) :=
  chunksAux bytes.length bytes

/-- SHA-256 digest (as eight 32-bit words) of a byte list. -/
def digestWords (msg : List Nat) : List Nat :=
  ((chunks (pad msg)).foldl compress H0)

/-- The eight hex characters of one 32-bit word, big-endian. -/
def hexWordChars (n : Nat) : List Char :=
  [hexDigit (n / 2 ^ 28 % 16), hexDigit (n / 2 ^ 24 % 16),
   hexDigit (n / 2 ^ 20 % 16), hexDigit (n / 2 ^ 16 % 16),
   hexDigit (n / 2 ^ 12 % 16), hexDigit (n / 2 ^ 8 % 16),
   hexDigit (n / 2 ^ 4 % 16), hexDigit (n % 16)]

/-- Lowercase hex digest of a byte list (`.digest('hex')`). -/
def digestHex (msg : List Nat) : String :=
  ⟨(digestWords msg).flatMap hexWordChars⟩

end SHA256

/-- UTF-8 encoding of one character. -/
def utf8Char (c : Char) : List Nat :=
  let n := c.toNat
  if n < 128 then [n]
  else if n < 2048 then [192 + n / 64, 128 + n % 64]
  else if n < 65536 then [224 + n / 4096, 128 + n / 64 % 64, 128 + n % 64]
  else [240 + n / 262144, 128 + n / 4096 % 64, 128 + n / 64 % 64, 128 + n % 64]

/-- UTF-8 bytes of a string (node hashes strings as UTF-8). -/
def utf8 (s : String) : List Nat :=
  s.data.flatMap utf8Char

/-- `createHash('sha256').update(s).digest('hex')`. -/
def sha256hex (s : String) : String :=
  SHA256.digestHex (utf8 s)

namespace SignAppend

/-- `FIELD_ORDER` of `src/scripts/sign-and-append.mjs` (lines 22–63). -/
def FIELD_ORDER : List String :=
  ["entry_id", "issued_at", "subject_type", "subject_ref", "subject_locator",
   "business_legal_name", "business_dba", "business_ein", "business_address",
   "business_country", "business_state", "business_industry",
   "business_website", "business_contact_email", "app_name", "app_version",
   "app_platform", "app_language", "app_framework", "repository_url",
   "license_type", "artifact_hash", "verification_date",
   "verification_method", "verified_by", "compliance_standards",
   "verification_scope", "risk_level", "expires_at", "related_entry_ids",
   "tags", "certificate_ids", "dependencies", "ai_models_used", "notes",
   "policy_version", "result", "scores", "report_hash", "key_id"]

/-- The array-valued fields whose element order is normalized by sorting
(`sign-and-append.mjs` line 83). -/
def arrayFields : List String :=
  ["ai_models_used", "compliance_standards", "related_entry_ids", "tags",
   "certificate_ids", "dependencies"]

/-- The per-field value transformation of `canonicalize` (lines 74–91):
the scores branch fires when the field is `scores` and the value is truthy;
otherwise array values of the listed fields are sorted; all other values are
copied. -/
def canonicalValue (f : String) (v : JVal) : JVal :=
  if f = "scores" ∧ truthy v then sortScoresVal v
  else match v with
    | .arr xs => if f ∈ arrayFields then .arr (sortedKeys xs) else .arr xs
    | w => w

/-- The treatment of one field by `canonicalize` (lines 71–92): keep it
only when it is defined (present) and not `null`. -/
def fieldSel (e : Entry) (f : String) : Option (String × JVal) :=
  match getField e f with
  | none => none
  | some .null => none
  | some v => some (f, canonicalValue f v)

/-- The object built by `canonicalize` (lines 68–93): iterate `FIELD_ORDER`. -/
def canonicalObj (e : Entry) : List (String × JVal) :=
  FIELD_ORDER.filterMap (fieldSel e)

/-- `canonicalize` of `sign-and-append.mjs` (line 96: `JSON.stringify`). -/
def canonicalize (e : Entry) : String :=
  stringifyObj (canonicalObj e)

end SignAppend

namespace Verify

/-- `FIELD_ORDER` of `scripts/verify.mjs` (`src/unnamed/part_001`
lines 19–30), also the `FIELD_ORDER` of `src/unnamed/part_000`. -/
def FIELD_ORDER : List String :=
  ["entry_id", "issued_at", "subject_type", "subject_ref", "subject_locator",
   "policy_version", "result", "scores", "report_hash", "key_id"]

/-- Per-field transformation of the verification-path `canonicalize`
(part_001 lines 39–51): only the scores rewrite, no null filtering and no
array sorting. -/
def canonicalValue (f : String) (v : JVal) : JVal :=
  if f = "scores" ∧ truthy v then sortScoresVal v else v

/-- The treatment of one field by part_001's `canonicalize` (lines 39–51):
a field is kept whenever it is defined — an explicit `null` value is
**kept** (only `undefined`, i.e. absence, is skipped). -/
def fieldSel (e : Entry) (f : String) : Option (String × JVal) :=
  match getField e f with
  | none => none
  | some v => some (f, canonicalValue f v)

/-- The object built by part_001's `canonicalize` (lines 35–55): iterate
the minimal `FIELD_ORDER`. -/
def canonicalObj (e : Entry) : List (String × JVal) :=
  FIELD_ORDER.filterMap (fieldSel e)

/-- `canonicalize` of `verify.mjs` (part_001 line 54). -/
def canonicalize (e : Entry) : String :=
  stringifyObj (canonicalObj e)

end Verify

namespace SignLegacy

/-- `canonicalize` of `src/unnamed/part_000` (lines 40–60): its body is
character-for-character the one of `verify.mjs`, so it is shared. -/
def canonicalize : Entry → String := Verify.canonicalize

end SignLegacy

/-! ## Idealized model of the external `tweetnacl` Ed25519 interface

A detached signature is modelled as the signed message together with the
signer's public key; `nacl.sign.detached.verify` recomputes both.  The
64-byte expanded secret key is `seed (32 bytes) ++ public key (32 bytes)`;
the seed-to-public-key derivation is idealized as the identity (any
injective derivation gives the same theorems). -/

structure Sig where
  msg : String
  pk : List Nat
deriving DecidableEq, Repr

/-- `nacl.sign.detached(message, secretKey)`: the public-key half of the
expanded 64-byte secret key is its last 32 bytes. -/
def naclSignDetached (message : String) (secretKey : List Nat) : Sig :=
  ⟨message, secretKey.drop 32⟩

/-- `nacl.sign.detached.verify(message, signature, publicKey)`. -/
def naclVerify (message : String) (s : Sig) (publicKey : List Nat) : Bool :=
  s.msg = message ∧ s.pk = publicKey

/-- `nacl.sign.keyPair.fromSeed(seed)` — returns
`(publicKey, secretKey = seed ++ publicKey)`. -/
def naclKeyPairFromSeed (seed : List Nat) : List Nat × List Nat :=
  (seed, seed ++ seed)

/-! ## Key registry (`keys/keys.json`) -/

/-- One record of `keys.json`: `{type, publicKeyBase64, createdAt}` (the
public key is kept as raw bytes; Base64 transport is invertible and
abstracted away). -/
structure KeyRecord where
  type : String
  publicKey : List Nat
deriving DecidableEq, Repr

/-- `keys.json`: `{active: key_id, keys: {key_id -> KeyRecord}}`. -/
structure KeysData where
  active : String
  keys : List (String × KeyRecord)
deriving DecidableEq, Repr

/-- First-match association lookup (JS object property read on the loaded
JSON files). -/
def lookupA {β : Type} : List (String × β) → String → Option β
  | [], _ => none
  | (k, v) :: rest, f => if k = f then some v else lookupA rest f

def lookupKey (reg : KeysData) (kid : String) : Option KeyRecord :=
  lookupA reg.keys kid

/-! ## Verifier (`scripts/verify.mjs`, `src/unnamed/part_001` lines 77–146) -/

namespace Verify

/-- The observable outcomes of `verify.mjs`'s `main`, one constructor per
`console.log`/`console.error` exit path.  The `valid` report (lines
125–130) carries `entry_id`, `key_id` and `issued_at`; the `invalidSig`
report (lines 133–137) carries `valid:false`, `entry_id` and the error
string `"Signature verification failed"` — and nothing else.  `thrown`
models an exception reaching the catch-all handler (line 141). -/
inductive Result where
  | missingSignature
  | missingKeyId
  | unknownKey (kid : String)
  | unsupportedAlgorithm (keyType : String)
  | valid (entryId : Option JVal) (kid : String) (issuedAt : Option JVal)
  | invalidSig (entryId : Option JVal)
  | thrown (msg : String)
deriving DecidableEq, Repr

/-- The key identifier carried by a verification report: the success JSON
prints `key_id`, and the unknown-key error message interpolates the
identifier; every other report mentions no key identifier. -/
def Result.keyIdOf : Result → Option String
  | .valid _ kid _ => some kid
  | .unknownKey kid => some kid
  | _ => none

/-- `verifySignature` (part_001 lines 60–74): the public-key length check
throws; the signature length check always passes in the idealized signature
model (a modelled `Sig` decodes to exactly 64 bytes). -/
def verifySignature (canonicalJson : String) (s : Sig) (publicKey : List Nat) :
    Except String Bool :=
  if publicKey.length ≠ 32 then
    .error ("Invalid public key length: expected 32 bytes, got " ++
      toString publicKey.length)
  else
    .ok (naclVerify canonicalJson s publicKey)

/-- `main` of `verify.mjs` (lines 77–146) on an already-loaded entry: the
falsy checks on `signature` and `key_id`, registry resolution, the
algorithm-tag check, signature stripping, canonicalization and the final
report.  A truthy non-signature value in the `signature` field reaches the
Base64/length path of `verifySignature` and throws. -/
def verifyMain (entry : Entry) (reg : KeysData) : Result :=
  if ¬ truthyOpt (getField entry "signature") then .missingSignature
  else if ¬ truthyOpt (getField entry "key_id") then .missingKeyId
  else
    let kid := jsToString (getField entry "key_id")
    match lookupKey reg kid with
    | none => .unknownKey kid
    | some keyInfo =>
      if keyInfo.type ≠ "ed25519" then .unsupportedAlgorithm keyInfo.type
      else
        let canonicalJson := canonicalize (removeField entry "signature")
        match getField entry "signature" with
        | some (.sig m pk) =>
          match verifySignature canonicalJson ⟨m, pk⟩ keyInfo.publicKey with
          | .error msg => .thrown msg
          | .ok true =>
              .valid (getField entry "entry_id") kid (getField entry "issued_at")
          | .ok false => .invalidSig (getField entry "entry_id")
        | _ => .thrown "Invalid signature length: expected 64 bytes"

end Verify

/-! ## Ledger store (the three writes of `sign-and-append.mjs` main,
lines 265–307) -/

/-- The content of one `index/subject_ref/<first2>/<hash>.json` file. -/
structure IndexData where
  subject_ref : String
  entry_ids : List String
deriving DecidableEq, Repr

/-- The durable state: per-entry record files under `entries/`, daily
NDJSON logs under `ledger/`, and the subject-reference index, keyed by the
full SHA-256 hex hash (the directory bucket is its two-character hex
prefix, recorded alongside). -/
structure LedgerState where
  entries : List (String × (Entry × Sig))
  ledger : List (String × List String)
  index : List (String × IndexData)
deriving DecidableEq

def emptyState : LedgerState := ⟨[], [], []⟩

/-- Assoc-list read with a default (a missing or empty file). -/
def lookupD {β : Type} (l : List (String × β)) (k : String) (d : β) : β :=
  match lookupA l k with
  | none => d
  | some v => v

/-- `writeFileSync` semantics on an assoc-list file system: replace the
content at an existing path, otherwise create the file. -/
def writeAt {β : Type} : List (String × β) → String → β → List (String × β)
  | [], k, v => [(k, v)]
  | (k', w) :: rest, k, v =>
      if k' = k then (k', v) :: rest else (k', w) :: writeAt rest k v

/-- The daily-log bucket: `new Date(issued_at).toISOString().split('T')[0]`.
Modelled from the spec for schema-conforming timestamps: `issued_at` is
ISO-8601 UTC with millisecond precision and `Z` suffix, on which the
JavaScript `Date` round-trip returns the same string, whose date part is
its first ten characters. -/
def utcDateOf (issuedAt : String) : String :=
  ⟨issuedAt.data.take 10⟩

/-- `JSON.stringify(signedEntry)`: the sealed entry in the payload's own
insertion order with the `signature` property assigned last (lines
260–263). -/
def serializeSealed (payload : Entry) (s : Sig) : String :=
  stringifyObj (setField payload "signature" (.sig s.msg s.pk))

/-- The index read-modify-write (lines 286–307): hash `subject_ref`, bucket
by the first two hex characters, add `entry_id` to the membership list only
if it is not already present (no write happens when it is). -/
def updateIndex (idx : List (String × IndexData)) (subjectRef entryId : String) :
    List (String × IndexData) :=
  let h := sha256hex subjectRef
  let cur := lookupD idx h ⟨subjectRef, []⟩
  if entryId ∈ cur.entry_ids then idx
  else writeAt idx h ⟨cur.subject_ref, cur.entry_ids ++ [entryId]⟩

/-- The three writes of an accepted append (lines 274–307): the per-entry
record (an unconditional `writeFileSync` — no existence check), one line
appended to the daily log, and the index update. -/
def storeAppend (st : LedgerState) (payload : Entry) (s : Sig) : LedgerState :=
  let eid := jsToString (getField payload "entry_id")
  let date := utcDateOf (jsToString (getField payload "issued_at"))
  { entries := writeAt st.entries eid (payload, s)
    ledger := writeAt st.ledger date
      (lookupD st.ledger date [] ++ [serializeSealed payload s])
    index := updateIndex st.index (jsToString (getField payload "subject_ref")) eid }

/-! ## Entry schema validation -/

def isHexChar (c : Char) : Bool :=
  (48 ≤ c.toNat ∧ c.toNat ≤ 57) ∨ (97 ≤ c.toNat ∧ c.toNat ≤ 102)

def digitAt (l : List Char) (i : Nat) : Bool :=
  match l.get? i with
  | some c => c.isDigit
  | none => false

def charAt (l : List Char) (i : Nat) (c : Char) : Bool :=
  l.get? i = some c

/-- `issued_at` shape: ISO-8601 UTC with millisecond precision and `Z`
suffix, `YYYY-MM-DDTHH:mm:ss.sssZ`. -/
def isoUtcOk (s : String) : Bool :=
  s.length = 24 ∧
  ([0, 1, 2, 3, 5, 6, 8, 9, 11, 12, 14, 15, 17, 18, 20, 21, 22].all
    (digitAt s.data)) ∧
  charAt s.data 4 '-' ∧ charAt s.data 7 '-' ∧ charAt s.data 10 'T' ∧
  charAt s.data 13 ':' ∧ charAt s.data 16 ':' ∧ charAt s.data 19 '.' ∧
  charAt s.data 23 'Z'

def nonEmptyStr : Option JVal → Bool
  | some (.str s) => s ≠ ""
  | _ => false

/-- `report_hash` shape: the literal prefix `sha256:` followed by a
non-empty lowercase hex digest. -/
def reportHashOk : Option JVal → Bool
  | some (.str s) =>
      (⟨s.data.take 7⟩ : String) = "sha256:" ∧ s.data.drop 7 ≠ [] ∧
        (s.data.drop 7).all isHexChar
  | _ => false

def scoresOk : Option JVal → Bool
  | none => true
  | some (.obj _) => true
  | _ => false

/-- Modelled from the spec: `schemas/ledger-entry.schema.json` is loaded by
both sign scripts but the schema file itself is not among the source files.
The checks follow §6 of the spec — required fields (with `signature`
filtered out of `required` before input validation, as both scripts do),
closed enumerations for `subject_type` and `result`, an ISO-8601 UTC
millisecond `Z` timestamp, a non-empty `subject_ref`, a `sha256:<hex>`
report hash, and an integer-valued `scores` mapping when present —
with additional fields permitted (§9: extended fields are optional and
additive). Returns the list of validation error messages. -/
def validateEntry (e : Entry) : List String :=
  (if nonEmptyStr (getField e "entry_id") then [] else
    ["entry_id must be a non-empty string"]) ++
  (if (match getField e "issued_at" with
       | some (.str s) => isoUtcOk s
       | _ => false) then [] else
    ["issued_at must be an ISO-8601 UTC millisecond timestamp"]) ++
  (if (match getField e "subject_type" with
       | some (.str s) => ["code", "document", "artifact", "repository"].contains s
       | _ => false) then [] else
    ["subject_type must be one of the closed enumeration"]) ++
  (if nonEmptyStr (getField e "subject_ref") then [] else
    ["subject_ref must be a non-empty string"]) ++
  (if nonEmptyStr (getField e "policy_version") then [] else
    ["policy_version must be a non-empty string"]) ++
  (if (match getField e "result" with
       | some (.str s) => ["pass", "fail", "partial"].contains s
       | _ => false) then [] else
    ["result must be one of pass, fail, partial"]) ++
  (if reportHashOk (getField e "report_hash") then [] else
    ["report_hash must match sha256:<hex>"]) ++
  (if scoresOk (getField e "scores") then [] else
    ["scores must be a mapping of category name to integer"]) ++
  (if nonEmptyStr (getField e "key_id") then [] else
    ["key_id must be a non-empty string"])

/-! ## Signer (`src/scripts/sign-and-append.mjs` main, lines 146–318) -/

namespace SignAppend

/-- Private-key length handling (lines 222–247): 32 bytes is a seed from
which the full keypair is derived, 64 bytes is the expanded keypair used
directly, anything else exits with a configuration error. -/
def resolveSecretKey (keyBytes : List Nat) : Except String (List Nat) :=
  if keyBytes.length = 32 then .ok (naclKeyPairFromSeed keyBytes).2
  else if keyBytes.length = 64 then .ok keyBytes
  else .error ("Error: Key length is " ++ toString keyBytes.length ++
    " bytes; expected: 32 bytes (seed) or 64 bytes (keypair)")

/-- The default report hash for a simple verification (lines 187–190). -/
def reportHashFor (entryIdText : String) : String :=
  "sha256:" ++ sha256hex ("simple-verification-no-report-" ++ entryIdText)

/-- Line 180–182: stamp `key_id` with the registry's active identifier when
the payload's `key_id` is falsy. -/
def stampKeyId (payload : Entry) (reg : KeysData) : Entry :=
  if truthyOpt (getField payload "key_id") then payload
  else setField payload "key_id" (.str reg.active)

/-- Lines 184–193: when `report_hash` is falsy (absent, `null`, the empty
string, …) it is set, before validation, to the deterministic
simple-verification digest of the entry identifier. -/
def autoReportHash (p : Entry) : Entry :=
  if truthyOpt (getField p "report_hash") then p
  else setField p "report_hash"
    (.str (reportHashFor (jsToString (getField p "entry_id"))))

/-- `main` (lines 146–318) on a parsed payload: resolve the active key,
stamp `key_id`, auto-fill `report_hash`, validate, canonicalize, resolve
the private key, sign, and perform the three store writes.  Every
`process.exit(1)` path is an `error`; note that no path inspects whether a
record for `entry_id` already exists. -/
def main (payload : Entry) (reg : KeysData) (keyBytes : List Nat)
    (st : LedgerState) : Except String (Entry × Sig × LedgerState) :=
  match lookupKey reg reg.active with
  | none => .error ("Error: Active key " ++ reg.active ++ " not found in keys.json")
  | some _keyInfo =>
    let p2 := autoReportHash (stampKeyId payload reg)
    if validateEntry p2 ≠ [] then .error "Validation errors"
    else
      let canonicalJson := canonicalize p2
      match resolveSecretKey keyBytes with
      | .error e => .error e
      | .ok secretKey =>
        let s := naclSignDetached canonicalJson secretKey
        .ok (p2, s, storeAppend st p2 s)

end SignAppend

namespace SignLegacy

/-- `signEntry` of `src/unnamed/part_000` (lines 65–76): the decoded
private key must be exactly 64 bytes; any other length — including a
32-byte seed — throws. -/
def signEntry (canonicalJson : String) (privateKeyBytes : List Nat) :
    Except String Sig :=
  if privateKeyBytes.length ≠ 64 then
    .error ("Invalid private key length: expected 64 bytes, got " ++
      toString privateKeyBytes.length)
  else .ok (naclSignDetached canonicalJson privateKeyBytes)

end SignLegacy

/-! ## Supporting lemmas: JSON escaping is injective -/

def unhex (c : Char) : Nat :=
  if c.isDigit then c.toNat - 48 else c.toNat - 87

mutual

/-- Fuelled left inverse of `escapeList` (one unit of fuel per decoded
source character). -/
def unescapeF : Nat → List Char → List Char
  | 0, _ => []
  | _ + 1, [] => []
  | fuel + 1, c :: rest =>
      if c = '\\' then unescEsc fuel rest else c :: unescapeF fuel rest

/-- Decoding after a backslash. -/
def unescEsc : Nat → List Char → List Char
  | _, [] => []
  | fuel, d :: rest' =>
      if d = '"' then '"' :: unescapeF fuel rest'
      else if d = '\\' then '\\' :: unescapeF fuel rest'
      else if d = 'n' then '\n' :: unescapeF fuel rest'
      else if d = 't' then '\t' :: unescapeF fuel rest'
      else if d = 'r' then '\r' :: unescapeF fuel rest'
      else if d = 'b' then Char.ofNat 8 :: unescapeF fuel rest'
      else if d = 'f' then Char.ofNat 12 :: unescapeF fuel rest'
      else if d = 'u' then unescU fuel rest'
      else d :: unescapeF fuel rest'

/-- Decoding after `\u`: skip the two zeros, read two hex digits. -/
def unescU : Nat → List Char → List Char
  | fuel, _ :: _ :: d1 :: d2 :: rest2 =>
      Char.ofNat (16 * unhex d1 + unhex d2) :: unescapeF fuel rest2
  | _, _ => []

end

/-- The rendered prefix contributed by the pieces before a given one. -/
def joinAll : List String → String
  | [] => ""
  | a :: as => a ++ "," ++ joinAll as

/-- The rendered suffix contributed by the pieces after a given one. -/
def joinTail : List String → String
  | [] => ""
  | a :: as => "," ++ joinComma (a :: as)

def seedA : List Nat := List.replicate 32 7

def regA : KeysData := ⟨"K1", [("K1", ⟨"ed25519", seedA⟩)]⟩

def zeros64 : String := ⟨List.replicate 64 '0'⟩

/-- The spec's concrete scenario entry (§8), supplied without `key_id`. -/
def entryA : Entry :=
  [("entry_id", .str "E1"), ("issued_at", .str "2026-02-01T05:00:00.000Z"),
   ("subject_type", .str "code"), ("subject_ref", .str "abc"),
   ("policy_version", .str "sv-0.1"), ("result", .str "pass"),
   ("scores", .obj [("security", 8), ("repro", 7)]),
   ("report_hash", .str ("sha256:" ++ zeros64))]

/-- Same `entry_id` as `entryA`, different `result`. -/
def entryB : Entry :=
  [("entry_id", .str "E1"), ("issued_at", .str "2026-02-01T05:00:00.000Z"),
   ("subject_type", .str "code"), ("subject_ref", .str "abc"),
   ("policy_version", .str "sv-0.1"), ("result", .str "fail"),
   ("report_hash", .str ("sha256:" ++ zeros64))]

def exceptOk {ε α : Type} : Except ε α → Bool
  | .ok _ => true
  | .error _ => false

instance {ε α : Type} [DecidableEq ε] [DecidableEq α] :
    DecidableEq (Except ε α) := fun a b =>
  match a, b with
  | .ok x, .ok y =>
      if h : x = y then .isTrue (by rw [h]) else
        .isFalse (fun hh => h (Except.ok.inj hh))
  | .error x, .error y =>
      if h : x = y then .isTrue (by rw [h]) else
        .isFalse (fun hh => h (Except.error.inj hh))
  | .ok _, .error _ => .isFalse (fun hh => Except.noConfusion hh)
  | .error _, .ok _ => .isFalse (fun hh => Except.noConfusion hh)

/-- The store state produced by a run of `sign-and-append.mjs` main. -/
def outState (r : Except String (Entry × Sig × LedgerState)) : LedgerState :=
  match r with
  | .ok (_, _, st) => st
  | .error _ => emptyState

/-! ## Claim C6 — private-key length handling -/

def p2A : Entry := SignAppend.autoReportHash (SignAppend.stampKeyId entryA regA)

def sigA : Sig :=
  naclSignDetached (SignAppend.canonicalize p2A) (naclKeyPairFromSeed seedA).2

/-- The canonical-plus-signature serialization the spec describes: the
canonical field order with the `signature` field appended last. -/
def canonicalPlusSig (e : Entry) (s : Sig) : String :=
  stringifyObj (SignAppend.canonicalObj e ++ [("signature", .sig s.msg s.pk)])

/-- `entryA` without its `report_hash` field. -/
def entryNoRH : Entry :=
  [("entry_id", .str "E1"), ("issued_at", .str "2026-02-01T05:00:00.000Z"),
   ("subject_type", .str "code"), ("subject_ref", .str "abc"),
   ("policy_version", .str "sv-0.1"), ("result", .str "pass"),
   ("scores", .obj [("security", 8), ("repro", 7)])]

/-- A sealed copy of `entryA` whose signature does not match its canonical
bytes. -/
def sealedBad : Entry :=
  entryA ++ [("key_id", .str "K1"), ("signature", .sig "wrong" seedA)]

/-- The spec's concrete scenario entry with fields supplied in a different
order and the `scores` keys swapped. -/
def entryAperm : Entry :=
  [("issued_at", .str "2026-02-01T05:00:00.000Z"), ("entry_id", .str "E1"),
   ("subject_ref", .str "abc"), ("subject_type", .str "code"),
   ("result", .str "pass"), ("policy_version", .str "sv-0.1"),
   ("report_hash", .str ("sha256:" ++ zeros64)),
   ("scores", .obj [("repro", 7), ("security", 8)])]

/-- An entry with an explicitly `null` optional field. -/
def entryNull : Entry :=
  [("entry_id", .str "E1"), ("subject_locator", .null)]

/-- The extended-field entry a legacy signer (minimal canonical order)
could seal: `tags` is outside the verifier's field order. -/
def taggedFields : Entry :=
  [("entry_id", .str "E1"), ("issued_at", .str "2026-02-01T05:00:00.000Z"),
   ("subject_type", .str "code"), ("subject_ref", .str "abc"),
   ("policy_version", .str "sv-0.1"), ("result", .str "pass"),
   ("report_hash", .str ("sha256:" ++ zeros64)), ("key_id", .str "K1"),
   ("tags", .arr ["a"])]

def sealedTagged : Entry :=
  taggedFields ++
    [("signature", .sig (Verify.canonicalize taggedFields) seedA)]

/-- A minimal sealed entry that verifies `Valid` against `regA`. -/
def minSealed : Entry :=
  [("entry_id", .str "E1"), ("issued_at", .str "2026-02-01T05:00:00.000Z"),
   ("subject_type", .str "code"), ("subject_ref", .str "abc"),
   ("policy_version", .str "sv-0.1"), ("result", .str "pass"),
   ("report_hash", .str ("sha256:" ++ zeros64)), ("key_id", .str "K1")] ++
  [("signature", .sig (Verify.canonicalize
    [("entry_id", .str "E1"), ("issued_at", .str "2026-02-01T05:00:00.000Z"),
     ("subject_type", .str "code"), ("subject_ref", .str "abc"),
     ("policy_version", .str "sv-0.1"), ("result", .str "pass"),
     ("report_hash", .str ("sha256:" ++ zeros64)), ("key_id", .str "K1")])
    seedA)]

/-- `entryA` extended with a `tags` field — schema-valid (extended fields
are optional and additive per §9 of the spec). -/
def payTagged : Entry := entryA ++ [("tags", .arr ["b", "a"])]

def p2T : Entry := SignAppend.autoReportHash (SignAppend.stampKeyId payTagged regA)

def sigT : Sig :=
  naclSignDetached (SignAppend.canonicalize p2T) (naclKeyPairFromSeed seedA).2

theorem unhex_hexDigit (m : Nat) (h : m < 16) : unhex (hexDigit m) = m := by
  interval_cases m <;> decide

theorem unescapeF_plain (f : Nat) (l : List Char) (c : Char) (h : c ≠ '\\') :
    unescapeF (f + 1) (c :: l) = c :: unescapeF f l := by
  rw [unescapeF, if_neg h]

theorem unescape_escape (s : List Char) :
    ∀ k, unescapeF (s.length + k) (escapeList s) = s := by
  induction s with
  | nil => intro k; cases k <;> rfl
  | cons c rest ih =>
    intro k
    have hlen : (c :: rest).length + k = (rest.length + k) + 1 := by
      simp; omega
    rw [hlen]
    show unescapeF ((rest.length + k) + 1) (escapeChar c ++ escapeList rest) =
      c :: rest
    unfold escapeChar
    by_cases h1 : c = '"'
    · subst h1
      rw [if_pos rfl, List.cons_append, List.cons_append, List.nil_append]
      rw [unescapeF, if_pos rfl, unescEsc, if_pos rfl, ih k]
    rw [if_neg h1]
    by_cases h2 : c = '\\'
    · subst h2
      rw [if_pos rfl, List.cons_append, List.cons_append, List.nil_append]
      rw [unescapeF, if_pos rfl, unescEsc,
        if_neg (by decide : ¬('\\' = '"')), if_pos rfl, ih k]
    rw [if_neg h2]
    by_cases h3 : c = '\n'
    · subst h3
      rw [if_pos rfl, List.cons_append, List.cons_append, List.nil_append]
      rw [unescapeF, if_pos rfl, unescEsc,
        if_neg (by decide : ¬('n' = '"')), if_neg (by decide : ¬('n' = '\\')),
        if_pos rfl, ih k]
    rw [if_neg h3]
    by_cases h4 : c = '\t'
    · subst h4
      rw [if_pos rfl, List.cons_append, List.cons_append, List.nil_append]
      rw [unescapeF, if_pos rfl, unescEsc,
        if_neg (by decide : ¬('t' = '"')), if_neg (by decide : ¬('t' = '\\')),
        if_neg (by decide : ¬('t' = 'n')), if_pos rfl, ih k]
    rw [if_neg h4]
    by_cases h5 : c = '\r'
    · subst h5
      rw [if_pos rfl, List.cons_append, List.cons_append, List.nil_append]
      rw [unescapeF, if_pos rfl, unescEsc,
        if_neg (by decide : ¬('r' = '"')), if_neg (by decide : ¬('r' = '\\')),
        if_neg (by decide : ¬('r' = 'n')), if_neg (by decide : ¬('r' = 't')),
        if_pos rfl, ih k]
    rw [if_neg h5]
    by_cases h6 : c.toNat = 8
    · have hc : c = Char.ofNat 8 := by rw [← h6, Char.ofNat_toNat]
      rw [if_pos h6, List.cons_append, List.cons_append, List.nil_append]
      rw [unescapeF, if_pos rfl, unescEsc,
        if_neg (by decide : ¬('b' = '"')), if_neg (by decide : ¬('b' = '\\')),
        if_neg (by decide : ¬('b' = 'n')), if_neg (by decide : ¬('b' = 't')),
        if_neg (by decide : ¬('b' = 'r')), if_pos rfl, ih k, ← hc]
    rw [if_neg h6]
    by_cases h7 : c.toNat = 12
    · have hc : c = Char.ofNat 12 := by rw [← h7, Char.ofNat_toNat]
      rw [if_pos h7, List.cons_append, List.cons_append, List.nil_append]
      rw [unescapeF, if_pos rfl, unescEsc,
        if_neg (by decide : ¬('f' = '"')), if_neg (by decide : ¬('f' = '\\')),
        if_neg (by decide : ¬('f' = 'n')), if_neg (by decide : ¬('f' = 't')),
        if_neg (by decide : ¬('f' = 'r')), if_neg (by decide : ¬('f' = 'b')),
        if_pos rfl, ih k, ← hc]
    rw [if_neg h7]
    by_cases h8 : c.toNat < 32
    · rw [if_pos h8, List.cons_append, List.cons_append, List.cons_append,
        List.cons_append, List.cons_append, List.cons_append,
        List.nil_append]
      rw [unescapeF, if_pos rfl, unescEsc,
        if_neg (by decide : ¬('u' = '"')), if_neg (by decide : ¬('u' = '\\')),
        if_neg (by decide : ¬('u' = 'n')), if_neg (by decide : ¬('u' = 't')),
        if_neg (by decide : ¬('u' = 'r')), if_neg (by decide : ¬('u' = 'b')),
        if_neg (by decide : ¬('u' = 'f')), if_pos rfl, unescU, ih k]
      rw [unhex_hexDigit _ (by omega), unhex_hexDigit _ (by omega)]
      rw [Nat.div_add_mod c.toNat 16, Char.ofNat_toNat]
    · rw [if_neg h8, List.cons_append, List.nil_append]
      have hc : c ≠ '\\' := h2
      rw [unescapeF_plain _ _ _ hc, ih k]

/-- `escapeList` is injective: decode both sides with the same fuel. -/
theorem escapeList_injective {s t : List Char}
    (h : escapeList s = escapeList t) : s = t := by
  have hs := unescape_escape s t.length
  have ht := unescape_escape t s.length
  rw [h] at hs
  rw [Nat.add_comm] at ht
  exact hs.symm.trans ht

theorem quoteStr_injective {s t : String} (h : quoteStr s = quoteStr t) :
    s = t := by
  have hd : ('"' :: escapeList s.data ++ ['"']) =
      ('"' :: escapeList t.data ++ ['"']) := congrArg String.data h
  have h1 : escapeList s.data = escapeList t.data := by
    have := List.append_cancel_right hd
    exact List.tail_eq_of_cons_eq this
  have h2 := escapeList_injective h1
  cases s; cases t; exact congrArg String.mk h2

/-! ## Supporting lemmas: field access and assignment -/

theorem getField_setField_same (e : Entry) (f : String) (v : JVal) :
    getField (setField e f v) f = some v := by
  induction e with
  | nil => simp [setField, getField]
  | cons kv rest ih =>
    by_cases h : kv.1 = f
    · simp [setField, getField, h]
    · simp [setField, getField, h, ih]

theorem getField_setField_other (e : Entry) (f g : String) (v : JVal)
    (h : g ≠ f) : getField (setField e f v) g = getField e g := by
  induction e with
  | nil =>
    show getField [(f, v)] g = getField [] g
    have hstep : getField [(f, v)] g = if f = g then some v else none := rfl
    rw [hstep, if_neg (fun hh => h hh.symm)]
    rfl
  | cons kv rest ih =>
    by_cases hk : kv.1 = f
    · simp only [setField, if_pos hk, getField]
      rw [if_neg (by rw [hk]; exact fun hh => h hh.symm)]
      rw [if_neg (by rw [hk]; exact fun hh => h hh.symm)]
    · simp only [setField, if_neg hk, getField]
      by_cases hg : kv.1 = g
      · rw [if_pos hg, if_pos hg]
      · rw [if_neg hg, if_neg hg, ih]

/-! ## Supporting lemmas: filterMap surgery -/

theorem filterMap_congr_on {α β : Type} {names : List α}
    {g g' : α → Option β} (h : ∀ a ∈ names, g a = g' a) :
    names.filterMap g = names.filterMap g' := by
  induction names with
  | nil => rfl
  | cons a rest ih =>
    rw [List.filterMap_cons, List.filterMap_cons, h a (by simp),
      ih (fun b hb => h b (by simp [hb]))]

theorem filterMap_filter_of_none {α β : Type} {names : List α}
    {g : α → Option β} {p : α → Bool}
    (h : ∀ a ∈ names, p a = false → g a = none) :
    names.filterMap g = (names.filter p).filterMap g := by
  induction names with
  | nil => rfl
  | cons a rest ih =>
    have ih' := ih (fun b hb hp => h b (by simp [hb]) hp)
    cases hp : p a with
    | false =>
      rw [List.filterMap_cons, h a (by simp) hp, List.filter_cons_of_neg
        (by simp [hp]), ih']
    | true =>
      rw [List.filterMap_cons, List.filter_cons_of_pos (by simp [hp]),
        List.filterMap_cons, ih']

/-- If two field functions agree on every name but `f`, and both keep `f`,
the two filterMaps differ in exactly the one position of `f`. -/
theorem filterMap_single_diff {β : Type} {names : List String} {f : String}
    {g g' : String → Option β} {x x' : β}
    (hnd : names.Nodup) (hf : f ∈ names)
    (hagree : ∀ a ∈ names, a ≠ f → g a = g' a)
    (hx : g f = some x) (hx' : g' f = some x') :
    ∃ A B, names.filterMap g = A ++ x :: B ∧
      names.filterMap g' = A ++ x' :: B := by
  induction names with
  | nil => cases hf
  | cons a rest ih =>
    rcases List.mem_cons.mp hf with rfl | hfr
    · refine ⟨[], rest.filterMap g, ?_, ?_⟩
      · rw [List.filterMap_cons, hx]; rfl
      · rw [List.filterMap_cons, hx']
        have : rest.filterMap g' = rest.filterMap g := by
          apply filterMap_congr_on
          intro b hb
          have hbne : b ≠ f := by
            rintro rfl
            exact (List.nodup_cons.mp hnd).1 hb
          exact (hagree b (by simp [hb]) hbne).symm
        rw [this]; rfl
    · have hane : a ≠ f := by
        rintro rfl
        exact (List.nodup_cons.mp hnd).1 hfr
      have ha := hagree a (by simp) hane
      obtain ⟨A, B, h1, h2⟩ := ih (List.nodup_cons.mp hnd).2 hfr
        (fun b hb hbne => hagree b (by simp [hb]) hbne)
      cases hga : g a with
      | none =>
        refine ⟨A, B, ?_, ?_⟩
        · rw [List.filterMap_cons, hga, h1]
        · rw [List.filterMap_cons, ← ha, hga, h2]
      | some b =>
        refine ⟨b :: A, B, ?_, ?_⟩
        · rw [List.filterMap_cons, hga, h1]; rfl
        · rw [List.filterMap_cons, ← ha, hga, h2]; rfl

/-! ## Supporting lemmas: comma joining and cancellation -/

theorem joinComma_split (A B : List String) (x : String) :
    joinComma (A ++ x :: B) = joinAll A ++ (x ++ joinTail B) := by
  induction A with
  | nil =>
    cases B with
    | nil => simp [joinComma, joinAll, joinTail]
    | cons b bs =>
      have hstep : joinComma (x :: b :: bs) = x ++ "," ++ joinComma (b :: bs) := rfl
      show joinComma (x :: b :: bs) = "" ++ (x ++ ("," ++ joinComma (b :: bs)))
      rw [hstep]
      simp [String.ext_iff, String.data_append]
  | cons a as ih =>
    show joinComma (a :: (as ++ x :: B)) = (a ++ "," ++ joinAll as) ++ _
    cases hcs : as ++ x :: B with
    | nil => simp at hcs
    | cons y ys =>
      have hstep : joinComma (a :: y :: ys) =
          a ++ "," ++ joinComma (y :: ys) := rfl
      rw [hstep, ← hcs, ih]
      simp [String.ext_iff, String.data_append, List.append_assoc]

theorem string_cancel {P S x y : String}
    (h : P ++ (x ++ S) = P ++ (y ++ S)) : x = y := by
  have hd := congrArg String.data h
  simp only [String.data_append] at hd
  have h1 := List.append_cancel_left hd
  have h2 := List.append_cancel_right h1
  cases x; cases y; exact congrArg String.mk h2

/-! ## Supporting lemmas: the scores rewrite -/

theorem getScore_perm {l₁ l₂ : List (String × Int)} (h : l₁.Perm l₂) :
    (l₁.map Prod.fst).Nodup → ∀ k, getScore l₁ k = getScore l₂ k := by
  induction h with
  | nil => intro _ k; rfl
  | cons x h' ih =>
    intro nd k
    obtain ⟨a, n⟩ := x
    simp only [getScore]
    by_cases hk : a = k
    · rw [if_pos hk, if_pos hk]
    · rw [if_neg hk, if_neg hk]
      exact ih (by simpa using (List.nodup_cons.mp (by simpa using nd)).2) k
  | swap x y l =>
    intro nd k
    obtain ⟨a, n⟩ := x
    obtain ⟨b, m⟩ := y
    have hab : b ≠ a := by
      simp only [List.map_cons, List.nodup_cons, List.mem_cons] at nd
      exact fun hh => nd.1 (Or.inl hh)
    simp only [getScore]
    by_cases hbk : b = k
    · rw [if_pos hbk, if_neg (by rw [← hbk]; exact fun hh => hab hh.symm),
        if_pos hbk]
    · by_cases hak : a = k
      · rw [if_neg hbk, if_pos hak, if_pos hak]
      · simp only [if_neg hbk, if_neg hak]
  | trans h₁ h₂ ih₁ ih₂ =>
    intro nd k
    have nd₂ := h₁.map Prod.fst |>.nodup nd
    exact (ih₁ nd k).trans (ih₂ nd₂ k)

theorem lexLt_asymm : ∀ l₁ l₂ : List Char,
    lexLt l₁ l₂ = true → lexLt l₂ l₁ = false := by
  intro l₁
  induction l₁ with
  | nil =>
    intro l₂ h
    cases l₂ with
    | nil => cases h
    | cons d ds => rfl
  | cons c cs ih =>
    intro l₂ h
    cases l₂ with
    | nil => cases h
    | cons d ds =>
      unfold lexLt at h ⊢
      by_cases h1 : c.toNat < d.toNat
      · rw [if_neg (by omega), if_pos h1]
      · rw [if_neg h1] at h
        by_cases h2 : d.toNat < c.toNat
        · rw [if_pos h2] at h; cases h
        · rw [if_neg h2] at h
          rw [if_neg h2, if_neg h1]
          exact ih ds h

theorem lexLt_conn : ∀ l₁ l₂ : List Char,
    lexLt l₁ l₂ = false → lexLt l₂ l₁ = false → l₁ = l₂ := by
  intro l₁
  induction l₁ with
  | nil =>
    intro l₂ h _
    cases l₂ with
    | nil => rfl
    | cons d ds => cases h
  | cons c cs ih =>
    intro l₂ h h'
    cases l₂ with
    | nil => cases h'
    | cons d ds =>
      unfold lexLt at h h'
      by_cases h1 : c.toNat < d.toNat
      · rw [if_pos h1] at h; cases h
      · by_cases h2 : d.toNat < c.toNat
        · rw [if_pos h2] at h'; cases h'
        · rw [if_neg h1, if_neg h2] at h
          rw [if_neg h2, if_neg h1] at h'
          have hcd : c = d := by
            have : c.toNat = d.toNat := by omega
            rw [← Char.ofNat_toNat c, this, Char.ofNat_toNat]
          rw [hcd, ih ds h h']

theorem lexLt_trans : ∀ l₁ l₂ l₃ : List Char,
    lexLt l₁ l₂ = true → lexLt l₂ l₃ = true → lexLt l₁ l₃ = true := by
  intro l₁
  induction l₁ with
  | nil =>
    intro l₂ l₃ h h'
    cases l₂ with
    | nil => cases h
    | cons d ds =>
      cases l₃ with
      | nil => cases h'
      | cons e es => rfl
  | cons c cs ih =>
    intro l₂ l₃ h h'
    cases l₂ with
    | nil => cases h
    | cons d ds =>
      cases l₃ with
      | nil => cases h'
      | cons e es =>
        unfold lexLt at h h' ⊢
        by_cases h1 : c.toNat < d.toNat
        · by_cases h2 : d.toNat < e.toNat
          · rw [if_pos (by omega)]
          · rw [if_neg h2] at h'
            by_cases h3 : e.toNat < d.toNat
            · rw [if_pos h3] at h'; cases h'
            · rw [if_pos (by omega)]
        · rw [if_neg h1] at h
          by_cases h4 : d.toNat < c.toNat
          · rw [if_pos h4] at h; cases h
          · rw [if_neg h4] at h
            by_cases h2 : d.toNat < e.toNat
            · rw [if_pos (by omega)]
            · rw [if_neg h2] at h'
              by_cases h3 : e.toNat < d.toNat
              · rw [if_pos h3] at h'; cases h'
              · rw [if_neg h3] at h'
                rw [if_neg (by omega), if_neg (by omega)]
                exact ih ds es h h'

theorem jsLe_total : ∀ a b : String, jsLe a b ∨ jsLe b a := by
  intro a b
  unfold jsLe
  cases hab : lexLt b.data a.data with
  | false => exact Or.inl rfl
  | true => exact Or.inr (lexLt_asymm _ _ hab)

theorem jsLe_trans : ∀ a b c : String, jsLe a b → jsLe b c → jsLe a c := by
  intro a b c hab hbc
  unfold jsLe at hab hbc ⊢
  cases hca : lexLt c.data a.data with
  | false => rfl
  | true =>
    cases hba : lexLt a.data b.data with
    | true =>
      have := lexLt_trans _ _ _ hca hba
      rw [this] at hbc; cases hbc
    | false =>
      have hdata := lexLt_conn _ _ hba hab
      rw [← hdata] at hbc
      rw [hbc] at hca
      cases hca

theorem jsLe_antisymm : ∀ a b : String, jsLe a b → jsLe b a → a = b := by
  intro a b hab hba
  unfold jsLe at hab hba
  have := lexLt_conn _ _ hba hab
  cases a; cases b; exact congrArg String.mk this

theorem sortedKeys_perm_eq {ks₁ ks₂ : List String} (h : ks₁.Perm ks₂) :
    sortedKeys ks₁ = sortedKeys ks₂ := by
  haveI : IsAntisymm String jsLe := ⟨jsLe_antisymm⟩
  haveI : IsTotal String jsLe := ⟨jsLe_total⟩
  haveI : IsTrans String jsLe := ⟨jsLe_trans⟩
  exact List.eq_of_perm_of_sorted
    ((List.perm_insertionSort _ _).trans
      (h.trans (List.perm_insertionSort _ _).symm))
    (List.sorted_insertionSort _ _) (List.sorted_insertionSort _ _)

/-- On key-duplicate-free scores objects, the sorted rebuild depends only on
the set of key-value pairs: the internal key order is irrelevant. -/
theorem sortPairs_perm_eq {l₁ l₂ : List (String × Int)} (h : l₁.Perm l₂)
    (nd : (l₁.map Prod.fst).Nodup) : sortPairs l₁ = sortPairs l₂ := by
  unfold sortPairs
  rw [sortedKeys_perm_eq (h.map Prod.fst)]
  exact List.map_congr_left (fun k _ => by rw [getScore_perm h nd k])

theorem map_getScore_keys {l : List (String × Int)}
    (nd : (l.map Prod.fst).Nodup) :
    (l.map Prod.fst).map (fun k => (k, getScore l k)) = l := by
  induction l with
  | nil => rfl
  | cons kv rest ih =>
    obtain ⟨a, n⟩ := kv
    simp only [List.map_cons, List.map_cons]
    have hnd := List.nodup_cons.mp
      (show (a :: rest.map Prod.fst).Nodup from nd)
    have hhead : getScore ((a, n) :: rest) a = n := by
      simp [getScore]
    rw [hhead]
    have htail : (rest.map Prod.fst).map
        (fun k => (k, getScore ((a, n) :: rest) k)) =
        (rest.map Prod.fst).map (fun k => (k, getScore rest k)) := by
      apply List.map_congr_left
      intro k hk
      have hka : a ≠ k := fun hh => hnd.1 (hh ▸ hk)
      simp [getScore, hka]
    rw [htail, ih hnd.2]

/-- The sorted rebuild is a permutation of the original scores object. -/
theorem sortPairs_perm {l : List (String × Int)}
    (nd : (l.map Prod.fst).Nodup) : (sortPairs l).Perm l := by
  unfold sortPairs
  have h1 : (sortedKeys (l.map Prod.fst)).map (fun k => (k, getScore l k))
      |>.Perm ((l.map Prod.fst).map (fun k => (k, getScore l k))) :=
    (List.perm_insertionSort _ _).map _
  rw [map_getScore_keys nd] at h1
  exact h1

/-- The sorted rebuild has its keys in lexicographically sorted order. -/
theorem sortPairs_sorted (l : List (String × Int)) :
    List.Sorted jsLe ((sortPairs l).map Prod.fst) := by
  unfold sortPairs
  haveI : IsTotal String jsLe := ⟨jsLe_total⟩
  haveI : IsTrans String jsLe := ⟨jsLe_trans⟩
  have hmm : ((sortedKeys (l.map Prod.fst)).map
      (fun k => (k, getScore l k))).map Prod.fst =
      sortedKeys (l.map Prod.fst) := by
    rw [List.map_map]
    have h1 : List.map (Prod.fst ∘ fun k => (k, getScore l k))
        (sortedKeys (List.map Prod.fst l)) =
        List.map id (sortedKeys (List.map Prod.fst l)) :=
      List.map_congr_left (fun k _ => rfl)
    rw [h1, List.map_id]
  rw [hmm]
  exact List.sorted_insertionSort _ _

/-! ## Supporting lemmas: canonicalization -/

theorem canonicalValue_str_S (f : String) (s : String) :
    SignAppend.canonicalValue f (.str s) = .str s := by
  unfold SignAppend.canonicalValue
  split
  · rfl
  · rfl

theorem canonicalValue_str_V (f : String) (s : String) :
    Verify.canonicalValue f (.str s) = .str s := by
  unfold Verify.canonicalValue
  split
  · rfl
  · rfl

/-- On the ten minimal field names the two per-field transformations
coincide (no minimal field is one of the sorted array fields). -/
theorem canonicalValue_minimal (f : String) (hf : f ∈ Verify.FIELD_ORDER)
    (v : JVal) : SignAppend.canonicalValue f v = Verify.canonicalValue f v := by
  fin_cases hf <;> cases v <;>
    simp [SignAppend.canonicalValue, Verify.canonicalValue,
      SignAppend.arrayFields, sortScoresVal]

/-- The verification-path canonical object reads the entry only through
`getField` at the minimal field names. -/
theorem canonicalObj_congr_V (e₁ e₂ : Entry)
    (h : ∀ f ∈ Verify.FIELD_ORDER, getField e₁ f = getField e₂ f) :
    Verify.canonicalObj e₁ = Verify.canonicalObj e₂ :=
  filterMap_congr_on (fun f hf => by
    unfold Verify.fieldSel
    rw [h f hf])

/-- On an entry confined to the minimal field set and free of `null`
values, the signing-path canonicalization (extended field order, null
filtering, array sorting) agrees with the verification-path one. -/
theorem canonicalObj_minimal (e : Entry)
    (hmin : ∀ f v, getField e f = some v → f ∈ Verify.FIELD_ORDER)
    (hnull : ∀ f, getField e f ≠ some .null) :
    SignAppend.canonicalObj e = Verify.canonicalObj e := by
  have hnone : ∀ f ∈ SignAppend.FIELD_ORDER,
      (decide (f ∈ Verify.FIELD_ORDER) : Bool) = false →
      SignAppend.fieldSel e f = none := by
    intro f _ hp
    have hnotin : f ∉ Verify.FIELD_ORDER := of_decide_eq_false hp
    cases hh : getField e f with
    | none => simp [SignAppend.fieldSel, hh]
    | some v => exact absurd (hmin f v hh) hnotin
  have step1 := filterMap_filter_of_none hnone
  have step2 : SignAppend.FIELD_ORDER.filter
      (fun f => (decide (f ∈ Verify.FIELD_ORDER) : Bool)) =
      Verify.FIELD_ORDER := by decide
  have step3 : Verify.FIELD_ORDER.filterMap (SignAppend.fieldSel e) =
      Verify.FIELD_ORDER.filterMap (Verify.fieldSel e) := by
    apply filterMap_congr_on
    intro f hf
    unfold SignAppend.fieldSel Verify.fieldSel
    cases hh : getField e f with
    | none => rfl
    | some v =>
      cases v with
      | null => exact absurd hh (hnull f)
      | str s => simp [canonicalValue_minimal f hf]
      | num n => simp [canonicalValue_minimal f hf]
      | arr xs => simp [canonicalValue_minimal f hf]
      | obj kvs => simp [canonicalValue_minimal f hf]
      | sig m pk => simp [canonicalValue_minimal f hf]
  show SignAppend.FIELD_ORDER.filterMap (SignAppend.fieldSel e) = _
  rw [step1, step2, step3]
  rfl

theorem getField_removeField (e : Entry) (f g : String) :
    getField (removeField e f) g = if g = f then none else getField e g := by
  induction e with
  | nil => simp [removeField, getField]
  | cons kv rest ih =>
    obtain ⟨k, v⟩ := kv
    by_cases hk : k = f
    · rw [removeField, List.filter_cons_of_neg (by simp [hk])]
      rw [removeField] at ih
      rw [ih]
      by_cases hg : g = f
      · rw [if_pos hg, if_pos hg]
      · rw [if_neg hg, if_neg hg, getField,
          if_neg (by rw [hk]; exact fun hh => hg hh.symm)]
    · rw [removeField, List.filter_cons_of_pos (by simp [hk])]
      rw [getField, getField]
      by_cases hkg : k = g
      · rw [if_pos hkg, if_pos hkg, if_neg (by rw [← hkg]; exact hk)]
      · rw [if_neg hkg, if_neg hkg]
        rw [removeField] at ih
        rw [ih]

/-- Cancellation through the fixed parts of a rendered object: if the
pieces before and after the distinguished one agree, equal renderings force
equal distinguished pieces. -/
theorem joinPieces_cancel {P S x y : String}
    (h : "\x7b" ++ (P ++ (x ++ S)) ++ "\x7d" = "\x7b" ++ (P ++ (y ++ S)) ++ "\x7d") :
    x = y := by
  have hd := congrArg String.data h
  simp only [String.data_append] at hd
  have h1 := List.append_cancel_right hd
  have h2 := List.append_cancel_left h1
  have h3 := List.append_cancel_left h2
  have h4 := List.append_cancel_right h3
  cases x; cases y; exact congrArg String.mk h4

theorem piece_cancel {q r1 r2 : String} (h : q ++ ":" ++ r1 = q ++ ":" ++ r2) :
    r1 = r2 := by
  have hd := congrArg String.data h
  simp only [String.data_append, List.append_assoc] at hd
  have h1 := List.append_cancel_left hd
  have h2 := List.append_cancel_left h1
  cases r1; cases r2; exact congrArg String.mk h2

/-- Two canonical objects that differ in exactly one field whose rendered
values differ have different `JSON.stringify` serializations. -/
theorem stringifyObj_single_diff {A B : List (String × JVal)} {f : String}
    {v v' : JVal} (hne : renderJVal v ≠ renderJVal v') :
    stringifyObj (A ++ (f, v) :: B) ≠ stringifyObj (A ++ (f, v') :: B) := by
  intro h
  unfold stringifyObj at h
  rw [List.map_append, List.map_append, List.map_cons, List.map_cons] at h
  rw [joinComma_split, joinComma_split] at h
  exact hne (piece_cancel (joinPieces_cancel h))

/-! ## Supporting lemmas: the assoc-list file system -/

theorem lookupA_writeAt_same {β : Type} (l : List (String × β)) (k : String)
    (v : β) : lookupA (writeAt l k v) k = some v := by
  induction l with
  | nil => simp [writeAt, lookupA]
  | cons kv rest ih =>
    by_cases h : kv.1 = k
    · simp [writeAt, lookupA, h]
    · simp [writeAt, lookupA, h, ih]

theorem lookupA_writeAt_other {β : Type} (l : List (String × β))
    (k k' : String) (v : β) (h : k' ≠ k) :
    lookupA (writeAt l k v) k' = lookupA l k' := by
  induction l with
  | nil =>
    show lookupA [(k, v)] k' = lookupA [] k'
    have hstep : lookupA [(k, v)] k' = if k = k' then some v else none := rfl
    rw [hstep, if_neg (fun hh => h hh.symm)]
    rfl
  | cons kv rest ih =>
    by_cases hk : kv.1 = k
    · simp only [writeAt, if_pos hk, lookupA]
      rw [if_neg (by rw [hk]; exact fun hh => h hh.symm)]
      rw [if_neg (by rw [hk]; exact fun hh => h hh.symm)]
    · simp only [writeAt, if_neg hk, lookupA]
      by_cases hg : kv.1 = k'
      · rw [if_pos hg, if_pos hg]
      · rw [if_neg hg, if_neg hg, ih]

theorem writeAt_keys {β : Type} (l : List (String × β)) (k : String) (v : β) :
    (writeAt l k v).map Prod.fst = l.map Prod.fst ∨
    (writeAt l k v).map Prod.fst = l.map Prod.fst ++ [k] ∧
      k ∉ l.map Prod.fst := by
  induction l with
  | nil => right; simp [writeAt]
  | cons kv rest ih =>
    by_cases h : kv.1 = k
    · left; simp [writeAt, h]
    · rcases ih with ih | ⟨ih, hk⟩
      · left; simp [writeAt, h, ih]
      · right
        constructor
        · simp [writeAt, h, ih]
        · simp only [List.map_cons, List.mem_cons]
          rintro (hh | hh)
          · exact h hh.symm
          · exact hk hh

theorem writeAt_keys_nodup {β : Type} (l : List (String × β)) (k : String)
    (v : β) (h : (l.map Prod.fst).Nodup) :
    ((writeAt l k v).map Prod.fst).Nodup := by
  rcases writeAt_keys l k v with hk | ⟨hk, hnotin⟩
  · rw [hk]; exact h
  · rw [hk]
    rw [List.nodup_append]
    exact ⟨h, List.nodup_singleton k, by simpa using hnotin⟩

/-! ## Supporting lemmas: shape of SHA-256 hex digests -/

theorem round_length (st : List Nat) (kw : Nat × Nat) :
    (SHA256.round st kw).length = st.length := by
  unfold SHA256.round
  split <;> simp

theorem foldl_round_length (l : List (Nat × Nat)) (st : List Nat) :
    (l.foldl SHA256.round st).length = st.length := by
  induction l generalizing st with
  | nil => rfl
  | cons kw rest ih => rw [List.foldl_cons, ih, round_length]

theorem compress_length (h block : List Nat) (hh : h.length = 8) :
    (SHA256.compress h block).length = 8 := by
  unfold SHA256.compress
  rw [List.length_map, List.length_zip, foldl_round_length, hh,
    Nat.min_self]

theorem digestWords_length (msg : List Nat) :
    (SHA256.digestWords msg).length = 8 := by
  unfold SHA256.digestWords
  have : ∀ (bs : List (List Nat)) (h : List Nat), h.length = 8 →
      (bs.foldl SHA256.compress h).length = 8 := by
    intro bs
    induction bs with
    | nil => intro h hh; exact hh
    | cons b rest ih =>
      intro h hh
      rw [List.foldl_cons]
      exact ih _ (compress_length h b hh)
  exact this _ SHA256.H0 rfl

theorem isHexChar_hexDigit (m : Nat) (h : m < 16) :
    isHexChar (hexDigit m) = true := by
  interval_cases m <;> decide

theorem hexWordChars_all_hex (n : Nat) :
    (SHA256.hexWordChars n).all isHexChar = true := by
  unfold SHA256.hexWordChars
  simp only [List.all_cons, List.all_nil, Bool.and_eq_true]
  refine ⟨?_, ?_, ?_, ?_, ?_, ?_, ?_, ?_, trivial⟩ <;>
    exact isHexChar_hexDigit _ (Nat.mod_lt _ (by omega))

/-- A SHA-256 hex digest is 64 characters, all lowercase hex. -/
theorem sha256hex_shape (s : String) :
    (sha256hex s).data.length = 64 ∧
      (sha256hex s).data.all isHexChar = true := by
  show ((SHA256.digestWords (utf8 s)).flatMap SHA256.hexWordChars).length = 64 ∧
    ((SHA256.digestWords (utf8 s)).flatMap SHA256.hexWordChars).all isHexChar = true
  constructor
  · have hlen : ∀ l : List Nat,
        (l.flatMap SHA256.hexWordChars).length = 8 * l.length := by
      intro l
      induction l with
      | nil => rfl
      | cons n rest ih => simp [SHA256.hexWordChars, ih]; omega
    rw [hlen, digestWords_length]
  · rw [List.all_eq_true]
    intro c hc
    rw [List.mem_flatMap] at hc
    obtain ⟨n, _, hcn⟩ := hc
    have := hexWordChars_all_hex n
    rw [List.all_eq_true] at this
    exact this c hcn

/-! ## Concrete fixtures -/

/-- C6, as stated, is false on `src/unnamed/part_000`: its `signEntry`
accepts only 64-byte keys, so a 32-byte seed is rejected with a fatal
length error instead of being expanded into a keypair. -/
theorem claim_C6_counterexample :
    exceptOk (SignLegacy.signEntry "m" (List.replicate 32 7)) = false ∧
    SignLegacy.signEntry "m" (List.replicate 32 7) =
      .error "Invalid private key length: expected 64 bytes, got 32" := by
  constructor
  · rfl
  · rfl

/-- C6 (amended): in `scripts/sign-and-append.mjs` a 32-byte private key is
treated as a seed whose expanded 64-byte keypair is derived transparently,
a 64-byte key is used directly, and any other length is a fatal
configuration error — `main` fails without producing a sealed entry.  The
secondary signer (`src/unnamed/part_000`) instead requires exactly 64
bytes and treats a 32-byte seed as fatal. -/
theorem claim_C6 (kb : List Nat) :
    (kb.length = 32 →
      SignAppend.resolveSecretKey kb = .ok (naclKeyPairFromSeed kb).2 ∧
      (naclKeyPairFromSeed kb).2.length = 64) ∧
    (kb.length = 64 → SignAppend.resolveSecretKey kb = .ok kb) ∧
    (kb.length ≠ 32 → kb.length ≠ 64 →
      exceptOk (SignAppend.resolveSecretKey kb) = false ∧
      ∀ (payload : Entry) (reg : KeysData) (st : LedgerState),
        exceptOk (SignAppend.main payload reg kb st) = false) ∧
    (kb.length ≠ 64 →
      exceptOk (SignLegacy.signEntry "m" kb) = false) := by
  refine ⟨?_, ?_, ?_, ?_⟩
  · intro h32
    constructor
    · unfold SignAppend.resolveSecretKey
      rw [if_pos h32]
    · show (kb ++ kb).length = 64
      rw [List.length_append, h32]
  · intro h64
    unfold SignAppend.resolveSecretKey
    rw [if_neg (by omega), if_pos h64]
  · intro h32 h64
    have hres : SignAppend.resolveSecretKey kb =
        .error ("Error: Key length is " ++ toString kb.length ++
          " bytes; expected: 32 bytes (seed) or 64 bytes (keypair)") := by
      unfold SignAppend.resolveSecretKey
      rw [if_neg h32, if_neg h64]
    refine ⟨by rw [hres]; rfl, ?_⟩
    intro payload reg st
    unfold SignAppend.main
    cases lookupKey reg reg.active with
    | none => rfl
    | some keyInfo =>
      by_cases hv : validateEntry
          (SignAppend.autoReportHash (SignAppend.stampKeyId payload reg)) ≠ []
      · simp only [if_pos hv]; rfl
      · simp only [if_neg hv, hres]; rfl
  · intro h64
    unfold SignLegacy.signEntry
    rw [if_pos h64]
    rfl

/-- Witness for C6 at concrete key lengths 32, 64 and 33. -/
theorem claim_C6_witness :
    (SignAppend.resolveSecretKey (List.replicate 32 7) =
      .ok (naclKeyPairFromSeed (List.replicate 32 7)).2) ∧
    (SignAppend.resolveSecretKey (List.replicate 64 7) =
      .ok (List.replicate 64 7)) ∧
    exceptOk (SignAppend.resolveSecretKey (List.replicate 33 7)) = false ∧
    exceptOk (SignAppend.main entryA regA (List.replicate 33 7) emptyState)
      = false :=
  ⟨((claim_C6 (List.replicate 32 7)).1 (by decide)).1,
   (claim_C6 (List.replicate 64 7)).2.1 (by decide),
   (((claim_C6 (List.replicate 33 7)).2.2.1 (by decide) (by decide))).1,
   (((claim_C6 (List.replicate 33 7)).2.2.1 (by decide) (by decide))).2
     entryA regA emptyState⟩

/-! ## Claim C2 — duplicate entry identifiers -/

/-- C2, as stated, is false: appending `entryB`, whose `entry_id` `E1`
already has a stored record, is accepted (no `DuplicateEntryId` rejection
exists in the code), and the stored record at `E1` is silently replaced —
afterwards it differs from the record the first append stored. -/
theorem claim_C2_counterexample :
    exceptOk (SignAppend.main entryB regA seedA
        (outState (SignAppend.main entryA regA seedA emptyState))) = true ∧
    lookupA (outState (SignAppend.main entryB regA seedA
        (outState (SignAppend.main entryA regA seedA emptyState)))).entries
        "E1" ≠
      lookupA (outState
        (SignAppend.main entryA regA seedA emptyState)).entries "E1" ∧
    ((outState (SignAppend.main entryB regA seedA
        (outState (SignAppend.main entryA regA seedA
          emptyState)))).entries.map Prod.fst) = ["E1"] := by
  refine ⟨by decide, by decide, by decide⟩

/-- C2 (amended): `append` performs no duplicate-`entry_id` check at all —
whether `main` accepts a payload is independent of the store state, and on
acceptance the per-entry record write unconditionally overwrites whatever
record existed at that `entry_id` (last writer wins), leaving exactly one
stored record per identifier and producing no rejection. -/
theorem claim_C2 (payload : Entry) (reg : KeysData) (kb : List Nat)
    (st st' : LedgerState) :
    exceptOk (SignAppend.main payload reg kb st) =
      exceptOk (SignAppend.main payload reg kb st') ∧
    (∀ p2 s stOut, SignAppend.main payload reg kb st = .ok (p2, s, stOut) →
      lookupA stOut.entries (jsToString (getField p2 "entry_id")) =
        some (p2, s) ∧
      ((st.entries.map Prod.fst).Nodup →
        (stOut.entries.map Prod.fst).Nodup)) := by
  constructor
  · unfold SignAppend.main
    cases lookupKey reg reg.active with
    | none => rfl
    | some keyInfo =>
      by_cases hv : validateEntry
          (SignAppend.autoReportHash (SignAppend.stampKeyId payload reg)) ≠ []
      · simp only [if_pos hv]
      · simp only [if_neg hv]
        cases SignAppend.resolveSecretKey kb with
        | error e => rfl
        | ok sk => rfl
  · intro p2 s stOut h
    unfold SignAppend.main at h
    cases hk : lookupKey reg reg.active with
    | none => rw [hk] at h; exact absurd h (by simp)
    | some keyInfo =>
      rw [hk] at h
      by_cases hv : validateEntry
          (SignAppend.autoReportHash (SignAppend.stampKeyId payload reg)) ≠ []
      · rw [if_pos hv] at h; exact absurd h (by simp)
      · rw [if_neg hv] at h
        cases hr : SignAppend.resolveSecretKey kb with
        | error e => rw [hr] at h; exact absurd h (by simp)
        | ok sk =>
          rw [hr] at h
          have h2 := Except.ok.inj h
          rw [Prod.mk.injEq, Prod.mk.injEq] at h2
          obtain ⟨hp2, hs, hst⟩ := h2
          subst hp2
          subst hs
          subst hst
          exact ⟨lookupA_writeAt_same st.entries _ _,
            fun hnd => writeAt_keys_nodup st.entries _ _ hnd⟩

/-- Witness for C2: the concrete first append of `entryA` stores its sealed
record and keeps the record keys duplicate-free. -/
theorem claim_C2_witness :
    lookupA (storeAppend emptyState p2A sigA).entries
        (jsToString (getField p2A "entry_id")) = some (p2A, sigA) ∧
    ((storeAppend emptyState p2A sigA).entries.map Prod.fst).Nodup := by
  have h0 : SignAppend.main entryA regA seedA emptyState =
      .ok (p2A, sigA, storeAppend emptyState p2A sigA) := by rfl
  have h := (claim_C2 entryA regA seedA emptyState emptyState).2
    p2A sigA (storeAppend emptyState p2A sigA) h0
  exact ⟨h.1, h.2 (by decide)⟩

/-! ## Claim C9 — subject-reference index membership -/

/-- C9: the index bucket for a `subject_ref` — the record keyed by the
SHA-256 hex hash of `subject_ref`, stored under the directory bucket of its
first two hex characters — gains `entry_id` at the end when it is new,
is left entirely unchanged when `entry_id` is already a member, never
touches any other bucket, and keeps its membership list duplicate-free;
`storeAppend` performs exactly this update on the index component. -/
theorem claim_C9 (idx : List (String × IndexData)) (ref id : String) :
    (∀ k, k ≠ sha256hex ref →
      lookupA (updateIndex idx ref id) k = lookupA idx k) ∧
    (id ∈ (lookupD idx (sha256hex ref) ⟨ref, []⟩).entry_ids →
      updateIndex idx ref id = idx) ∧
    (id ∉ (lookupD idx (sha256hex ref) ⟨ref, []⟩).entry_ids →
      (lookupD (updateIndex idx ref id) (sha256hex ref)
          ⟨ref, []⟩).entry_ids =
        (lookupD idx (sha256hex ref) ⟨ref, []⟩).entry_ids ++ [id]) ∧
    ((lookupD idx (sha256hex ref) ⟨ref, []⟩).entry_ids.Nodup →
      (lookupD (updateIndex idx ref id) (sha256hex ref)
          ⟨ref, []⟩).entry_ids.Nodup) ∧
    (∀ (st : LedgerState) (e : Entry) (s : Sig),
      (storeAppend st e s).index = updateIndex st.index
        (jsToString (getField e "subject_ref"))
        (jsToString (getField e "entry_id"))) := by
  by_cases hmem : id ∈ (lookupD idx (sha256hex ref) ⟨ref, []⟩).entry_ids
  · have hsame : updateIndex idx ref id = idx := by
      unfold updateIndex
      rw [if_pos hmem]
    refine ⟨fun k _ => by rw [hsame], fun _ => hsame, fun hno => absurd hmem hno,
      fun hnd => by rw [hsame]; exact hnd, fun st e s => rfl⟩
  · have hnew : updateIndex idx ref id = writeAt idx (sha256hex ref)
        ⟨(lookupD idx (sha256hex ref) ⟨ref, []⟩).subject_ref,
          (lookupD idx (sha256hex ref) ⟨ref, []⟩).entry_ids ++ [id]⟩ := by
      unfold updateIndex
      rw [if_neg hmem]
    have hbucket : (lookupD (updateIndex idx ref id) (sha256hex ref)
        ⟨ref, []⟩).entry_ids =
        (lookupD idx (sha256hex ref) ⟨ref, []⟩).entry_ids ++ [id] := by
      rw [hnew]
      unfold lookupD
      rw [lookupA_writeAt_same]
    refine ⟨?_, fun hm => absurd hm hmem, fun _ => hbucket, ?_,
      fun st e s => rfl⟩
    · intro k hk
      rw [hnew, lookupA_writeAt_other _ _ _ _ hk]
    · intro hnd
      rw [hbucket]
      simp only [List.nodup_append, List.nodup_singleton]
      exact ⟨hnd, trivial, by simpa using hmem⟩

/-- Witness for C9: starting from an empty index, appending `E1` for
subject `abc` creates its hash bucket with the singleton membership list
(shown at both conjuncts that carry hypotheses). -/
theorem claim_C9_witness :
    (lookupD (updateIndex [] "abc" "E1") (sha256hex "abc")
        ⟨"abc", []⟩).entry_ids = [] ++ ["E1"] ∧
    (lookupD (updateIndex [] "abc" "E1") (sha256hex "abc")
        ⟨"abc", []⟩).entry_ids.Nodup := by
  have h := claim_C9 [] "abc" "E1"
  exact ⟨h.2.2.1 (by simp [lookupD, lookupA]),
    h.2.2.2.1 (by simp [lookupD, lookupA])⟩

/-! ## Claim C8 — the daily ledger line -/

theorem fieldSel_keys_S (e : Entry) (f : String) (x : String × JVal)
    (h : SignAppend.fieldSel e f = some x) : x.1 = f := by
  unfold SignAppend.fieldSel at h
  cases hh : getField e f with
  | none => rw [hh] at h; cases h
  | some v =>
    rw [hh] at h
    cases v <;> cases h <;> rfl

theorem filterMap_keys_sublist {names : List String}
    {g : String → Option (String × JVal)}
    (hg : ∀ f x, g f = some x → x.1 = f) :
    ((names.filterMap g).map Prod.fst).Sublist names := by
  induction names with
  | nil => simp
  | cons a rest ih =>
    rw [List.filterMap_cons]
    cases hga : g a with
    | none => exact ih.cons a
    | some x =>
      rw [List.map_cons, hg a x hga]
      exact ih.cons₂ a

theorem setField_notmem (e : Entry) (f : String) (v : JVal)
    (h : f ∉ e.map Prod.fst) : setField e f v = e ++ [(f, v)] := by
  induction e with
  | nil => rfl
  | cons kv rest ih =>
    have hne : kv.1 ≠ f := by
      intro hh
      exact h (by simp [hh])
    rw [show setField (kv :: rest) f v =
      if kv.1 = f then (kv.1, v) :: rest else kv :: setField rest f v by
        obtain ⟨k, w⟩ := kv; rfl]
    rw [if_neg hne, ih (fun hm => h (by simp [hm]))]
    rfl

/-- Inversion of a successful `sign-and-append.mjs` run. -/
theorem main_ok_inv {payload : Entry} {reg : KeysData} {kb : List Nat}
    {st : LedgerState} {p2 : Entry} {s : Sig} {stOut : LedgerState}
    (h : SignAppend.main payload reg kb st = .ok (p2, s, stOut)) :
    p2 = SignAppend.autoReportHash (SignAppend.stampKeyId payload reg) ∧
    (∃ sk, SignAppend.resolveSecretKey kb = .ok sk ∧
      s = naclSignDetached (SignAppend.canonicalize p2) sk) ∧
    stOut = storeAppend st p2 s ∧
    lookupKey reg reg.active ≠ none ∧ validateEntry p2 = [] := by
  unfold SignAppend.main at h
  cases hk : lookupKey reg reg.active with
  | none => rw [hk] at h; exact absurd h (by simp)
  | some keyInfo =>
    rw [hk] at h
    by_cases hv : validateEntry
        (SignAppend.autoReportHash (SignAppend.stampKeyId payload reg)) ≠ []
    · rw [if_pos hv] at h; exact absurd h (by simp)
    · rw [if_neg hv] at h
      cases hr : SignAppend.resolveSecretKey kb with
      | error e => rw [hr] at h; exact absurd h (by simp)
      | ok sk =>
        rw [hr] at h
        have h2 := Except.ok.inj h
        rw [Prod.mk.injEq, Prod.mk.injEq] at h2
        obtain ⟨hp2, hs, hst⟩ := h2
        subst hp2
        subst hs
        subst hst
        exact ⟨rfl, ⟨sk, rfl, rfl⟩, rfl,
          fun hnone => Option.noConfusion hnone,
          by simpa using hv⟩

/-- C8 (amended): an accepted append adds exactly one line, to the daily
log bucket named by the UTC calendar date taken from the entry's
`issued_at` (not the write time), and touches no other bucket; but the
line is `JSON.stringify` of the sealed entry in the payload's own insertion
order with `signature` last — it coincides with the canonical-plus-
signature serialization only when the processed payload already equals its
canonical object. -/
theorem claim_C8 (payload : Entry) (reg : KeysData) (kb : List Nat)
    (st : LedgerState) (p2 : Entry) (s : Sig) (stOut : LedgerState)
    (h : SignAppend.main payload reg kb st = .ok (p2, s, stOut)) :
    lookupD stOut.ledger (utcDateOf (jsToString (getField p2 "issued_at")))
        [] =
      lookupD st.ledger (utcDateOf (jsToString (getField p2 "issued_at")))
        [] ++ [serializeSealed p2 s] ∧
    (∀ d', d' ≠ utcDateOf (jsToString (getField p2 "issued_at")) →
      lookupA stOut.ledger d' = lookupA st.ledger d') ∧
    (p2 = SignAppend.canonicalObj p2 →
      serializeSealed p2 s = canonicalPlusSig p2 s) := by
  obtain ⟨_, _, hst, _, _⟩ := main_ok_inv h
  subst hst
  refine ⟨?_, ?_, ?_⟩
  · show lookupD (writeAt st.ledger _ _) _ [] = _
    unfold lookupD
    rw [lookupA_writeAt_same]
  · intro d' hd'
    exact lookupA_writeAt_other _ _ _ _ hd'
  · intro hp
    unfold serializeSealed canonicalPlusSig
    have hkeys : "signature" ∉ p2.map Prod.fst := by
      intro hmem
      have hsub : (p2.map Prod.fst).Sublist SignAppend.FIELD_ORDER := by
        conv_lhs => rw [hp]
        exact filterMap_keys_sublist (fieldSel_keys_S p2)
      have : "signature" ∈ SignAppend.FIELD_ORDER := hsub.mem hmem
      revert this
      decide
    rw [setField_notmem p2 "signature" _ hkeys]
    conv_lhs => rw [hp]

/-- C8, as stated, is false already on the spec's own concrete scenario:
the appended line for `entryA` (stored under the `2026-02-01` bucket of
its `issued_at`) serializes the `scores` mapping in the payload's insertion
order, not the canonical sorted order, so it differs from the
canonical-plus-signature serialization. -/
theorem claim_C8_counterexample :
    SignAppend.main entryA regA seedA emptyState =
      .ok (p2A, sigA, storeAppend emptyState p2A sigA) ∧
    lookupD (storeAppend emptyState p2A sigA).ledger "2026-02-01" [] =
      [serializeSealed p2A sigA] ∧
    serializeSealed p2A sigA ≠ canonicalPlusSig p2A sigA := by
  refine ⟨by rfl, by decide, by decide⟩

/-- Witness for C8 at the concrete run of `entryA`. -/
theorem claim_C8_witness :
    lookupD (storeAppend emptyState p2A sigA).ledger
        (utcDateOf (jsToString (getField p2A "issued_at"))) [] =
      lookupD emptyState.ledger
        (utcDateOf (jsToString (getField p2A "issued_at"))) [] ++
        [serializeSealed p2A sigA] := by
  have h0 : SignAppend.main entryA regA seedA emptyState =
      .ok (p2A, sigA, storeAppend emptyState p2A sigA) := by rfl
  exact (claim_C8 entryA regA seedA emptyState p2A sigA
    (storeAppend emptyState p2A sigA) h0).1

/-! ## Claim C10 — the report-hash auto-fill -/

/-- C10: when the candidate's `report_hash` is absent, `null` or the empty
string, the pipeline, before validation, sets it to `sha256:` followed by
the hex SHA-256 digest of `simple-verification-no-report-` concatenated
with `entry_id` — a deterministic function of `entry_id` alone — and the
filled value satisfies the schema's `report_hash` constraint, so
validation never rejects on its account. -/
theorem claim_C10 (payload : Entry) (reg : KeysData) (eid : String)
    (hid : getField payload "entry_id" = some (.str eid))
    (hrh : getField payload "report_hash" = none ∨
      getField payload "report_hash" = some .null ∨
      getField payload "report_hash" = some (.str "")) :
    getField (SignAppend.autoReportHash (SignAppend.stampKeyId payload reg))
        "report_hash" =
      some (.str (SignAppend.reportHashFor eid)) ∧
    SignAppend.reportHashFor eid =
      "sha256:" ++ sha256hex ("simple-verification-no-report-" ++ eid) ∧
    reportHashOk (getField (SignAppend.autoReportHash
      (SignAppend.stampKeyId payload reg)) "report_hash") = true ∧
    "report_hash must match sha256:<hex>" ∉
      validateEntry (SignAppend.autoReportHash
        (SignAppend.stampKeyId payload reg)) := by
  have hid1 : getField (SignAppend.stampKeyId payload reg) "entry_id" =
      some (.str eid) := by
    unfold SignAppend.stampKeyId
    split
    · exact hid
    · rw [getField_setField_other _ _ _ _ (by decide), hid]
  have hrh1 : getField (SignAppend.stampKeyId payload reg) "report_hash" =
      getField payload "report_hash" := by
    unfold SignAppend.stampKeyId
    split
    · rfl
    · exact getField_setField_other _ _ _ _ (by decide)
  have hfalsy : truthyOpt (getField (SignAppend.stampKeyId payload reg)
      "report_hash") = false := by
    rw [hrh1]
    rcases hrh with h | h | h <;> rw [h] <;> rfl
  have hp2 : SignAppend.autoReportHash (SignAppend.stampKeyId payload reg) =
      setField (SignAppend.stampKeyId payload reg) "report_hash"
        (.str (SignAppend.reportHashFor eid)) := by
    unfold SignAppend.autoReportHash
    rw [if_neg (by rw [hfalsy]; exact fun hh => Bool.noConfusion hh), hid1]
    rfl
  have hget : getField (SignAppend.autoReportHash
      (SignAppend.stampKeyId payload reg)) "report_hash" =
      some (.str (SignAppend.reportHashFor eid)) := by
    rw [hp2, getField_setField_same]
  have hdata : (SignAppend.reportHashFor eid).data =
      "sha256:".data ++
        (sha256hex ("simple-verification-no-report-" ++ eid)).data := by
    show ("sha256:" ++ sha256hex ("simple-verification-no-report-" ++ eid)).data = _
    rw [String.data_append]
  have hshape := sha256hex_shape ("simple-verification-no-report-" ++ eid)
  have htake : ((SignAppend.reportHashFor eid).data.take 7) =
      "sha256:".data := by
    rw [hdata]
    exact List.take_left' (by decide)
  have hdrop : ((SignAppend.reportHashFor eid).data.drop 7) =
      (sha256hex ("simple-verification-no-report-" ++ eid)).data := by
    rw [hdata]
    exact List.drop_left' (by decide)
  have hok : reportHashOk (some (.str (SignAppend.reportHashFor eid)))
      = true := by
    have hstep : reportHashOk (some (.str (SignAppend.reportHashFor eid))) =
        decide ((⟨(SignAppend.reportHashFor eid).data.take 7⟩ : String) =
            "sha256:" ∧
          (SignAppend.reportHashFor eid).data.drop 7 ≠ [] ∧
          ((SignAppend.reportHashFor eid).data.drop 7).all isHexChar
            = true) := rfl
    rw [hstep, htake, hdrop, decide_eq_true_eq]
    refine ⟨rfl, ?_, hshape.2⟩
    intro hnil
    rw [hnil] at hshape
    cases hshape.1
  refine ⟨hget, rfl, by rw [hget]; exact hok, ?_⟩
  intro hmem
  unfold validateEntry at hmem
  simp only [List.mem_append] at hmem
  rcases hmem with ((((((((hmem | hmem) | hmem) | hmem) | hmem) | hmem)
    | hmem) | hmem) | hmem) <;>
    first
      | (revert hmem
         split
         · intro hh
           exact absurd hh (List.not_mem_nil _)
         · intro hh
           rw [List.mem_singleton] at hh
           revert hh
           decide)
      | (rw [hget, if_pos hok] at hmem
         exact absurd hmem (List.not_mem_nil _))

/-- Witness for C10: `entryA` with `report_hash` left out is auto-filled
with the deterministic digest of its `entry_id` and accepted end to end. -/
theorem claim_C10_witness :
    getField (SignAppend.autoReportHash (SignAppend.stampKeyId entryNoRH
        regA)) "report_hash" =
      some (.str (SignAppend.reportHashFor "E1")) ∧
    SignAppend.reportHashFor "E1" =
      "sha256:" ++ sha256hex ("simple-verification-no-report-E1") ∧
    exceptOk (SignAppend.main entryNoRH regA seedA emptyState) = true := by
  have h := claim_C10 entryNoRH regA "E1" (by decide) (Or.inl (by decide))
  exact ⟨h.1, h.2.1, by rfl⟩

/-! ## Claim C7 — verifier check order and failure reporting -/

/-- C7, as stated, is false in its reporting clause: on a failed signature
check the emitted report is `{valid:false, entry_id, error}` — it carries
the entry identifier and the distinct reason, but no key identifier. -/
theorem claim_C7_counterexample :
    Verify.verifyMain sealedBad regA = .invalidSig (some (.str "E1")) ∧
    Verify.Result.keyIdOf (Verify.verifyMain sealedBad regA) = none := by
  refine ⟨by decide, by decide⟩

/-- C7 (amended): the verifier rejects on a falsy `signature` before any
other check, then on a falsy `key_id`, then resolves `key_id` in the
registry rejecting with the unknown-key error, then rejects a non-ed25519
algorithm tag, and only then checks the signature; a failed check yields
the signature-failure report, a constructor distinct from all structural
errors, carrying the entry identifier — but, unlike the success report, no
key identifier. -/
theorem claim_C7 (entry : Entry) (reg : KeysData) :
    (truthyOpt (getField entry "signature") = false →
      Verify.verifyMain entry reg = .missingSignature) ∧
    (truthyOpt (getField entry "signature") = true →
      truthyOpt (getField entry "key_id") = false →
      Verify.verifyMain entry reg = .missingKeyId) ∧
    (truthyOpt (getField entry "signature") = true →
      truthyOpt (getField entry "key_id") = true →
      lookupKey reg (jsToString (getField entry "key_id")) = none →
      Verify.verifyMain entry reg =
        .unknownKey (jsToString (getField entry "key_id"))) ∧
    (∀ rec : KeyRecord, truthyOpt (getField entry "signature") = true →
      truthyOpt (getField entry "key_id") = true →
      lookupKey reg (jsToString (getField entry "key_id")) = some rec →
      rec.type ≠ "ed25519" →
      Verify.verifyMain entry reg = .unsupportedAlgorithm rec.type) ∧
    (∀ (rec : KeyRecord) (m : String) (pk : List Nat),
      getField entry "signature" = some (.sig m pk) →
      truthyOpt (getField entry "key_id") = true →
      lookupKey reg (jsToString (getField entry "key_id")) = some rec →
      rec.type = "ed25519" → rec.publicKey.length = 32 →
      Verify.verifyMain entry reg =
        (if naclVerify (Verify.canonicalize (removeField entry "signature"))
            ⟨m, pk⟩ rec.publicKey
         then .valid (getField entry "entry_id")
           (jsToString (getField entry "key_id"))
           (getField entry "issued_at")
         else .invalidSig (getField entry "entry_id"))) ∧
    (∀ eid, Verify.Result.keyIdOf (.invalidSig eid) = none) ∧
    (∀ eid kid iss, Verify.Result.keyIdOf (.valid eid kid iss) = some kid) := by
  refine ⟨?_, ?_, ?_, ?_, ?_, fun _ => rfl, fun _ _ _ => rfl⟩
  · intro hsig
    unfold Verify.verifyMain
    rw [if_pos (by rw [hsig]; exact fun hh => Bool.noConfusion hh)]
  · intro hsig hkid
    unfold Verify.verifyMain
    rw [if_neg (by rw [hsig]; exact fun hh => hh rfl),
      if_pos (by rw [hkid]; exact fun hh => Bool.noConfusion hh)]
  · intro hsig hkid hlk
    unfold Verify.verifyMain
    rw [if_neg (by rw [hsig]; exact fun hh => hh rfl),
      if_neg (by rw [hkid]; exact fun hh => hh rfl)]
    simp only [hlk]
  · intro rec hsig hkid hlk htype
    unfold Verify.verifyMain
    rw [if_neg (by rw [hsig]; exact fun hh => hh rfl),
      if_neg (by rw [hkid]; exact fun hh => hh rfl)]
    simp only [hlk]
    rw [if_pos htype]
  · intro rec m pk hsig hkid hlk htype hpk
    unfold Verify.verifyMain
    have hsigT : truthyOpt (getField entry "signature") = true := by
      rw [hsig]; rfl
    rw [if_neg (by rw [hsigT]; exact fun hh => hh rfl),
      if_neg (by rw [hkid]; exact fun hh => hh rfl)]
    simp only [hlk]
    rw [if_neg (by rw [htype]; exact fun hh => hh rfl)]
    simp only [hsig]
    unfold Verify.verifySignature
    rw [if_neg (by rw [hpk]; exact fun hh => hh rfl)]
    cases hnv : naclVerify (Verify.canonicalize (removeField entry
        "signature")) ⟨m, pk⟩ rec.publicKey with
    | true => rw [if_pos rfl]
    | false => rw [if_neg (fun hh => Bool.noConfusion hh)]

/-- Witness for C7: every branch instantiated on concrete entries built
from `entryA` against the registry `regA`. -/
theorem claim_C7_witness :
    Verify.verifyMain entryA regA = .missingSignature ∧
    Verify.verifyMain (entryA ++ [("signature", .sig "m" seedA)]) regA =
      .missingKeyId ∧
    Verify.verifyMain (entryA ++ [("key_id", .str "KX"),
      ("signature", .sig "m" seedA)]) regA = .unknownKey "KX" ∧
    Verify.Result.keyIdOf (.invalidSig (some (.str "E1"))) = none := by
  have h := claim_C7 entryA regA
  have h2 := claim_C7 (entryA ++ [("signature", .sig "m" seedA)]) regA
  have h3 := claim_C7 (entryA ++ [("key_id", .str "KX"),
    ("signature", .sig "m" seedA)]) regA
  exact ⟨h.1 (by decide), h2.2.1 (by decide) (by decide),
    h3.2.2.1 (by decide) (by decide) (by decide),
    (claim_C7 entryA regA).2.2.2.2.2.1 (some (.str "E1"))⟩

/-! ## Claim C5 — canonicalization is a function of the logical entry -/

/-- C5: two entries that agree on every field lookup — regardless of the
order the fields were supplied in — and whose `scores` mappings are equal
up to internal key order (as key-duplicate-free permutations) canonicalize
to byte-identical output, on the signing path and on the verification
path alike. -/
theorem claim_C5 (e₁ e₂ : Entry)
    (hfields : ∀ f, f ≠ "scores" → getField e₁ f = getField e₂ f)
    (hscores : getField e₁ "scores" = getField e₂ "scores" ∨
      ∃ l₁ l₂, getField e₁ "scores" = some (.obj l₁) ∧
        getField e₂ "scores" = some (.obj l₂) ∧
        l₁.Perm l₂ ∧ (l₁.map Prod.fst).Nodup) :
    SignAppend.canonicalize e₁ = SignAppend.canonicalize e₂ ∧
    Verify.canonicalize e₁ = Verify.canonicalize e₂ := by
  have hcv : ∀ l₁ l₂ : List (String × Int), l₁.Perm l₂ →
      (l₁.map Prod.fst).Nodup →
      (SignAppend.canonicalValue "scores" (.obj l₁) =
        SignAppend.canonicalValue "scores" (.obj l₂) ∧
       Verify.canonicalValue "scores" (.obj l₁) =
        Verify.canonicalValue "scores" (.obj l₂)) := by
    intro l₁ l₂ hperm hnd
    constructor
    · unfold SignAppend.canonicalValue
      rw [if_pos ⟨rfl, rfl⟩, if_pos ⟨rfl, rfl⟩]
      show JVal.obj (sortPairs l₁) = JVal.obj (sortPairs l₂)
      rw [sortPairs_perm_eq hperm hnd]
    · unfold Verify.canonicalValue
      rw [if_pos ⟨rfl, rfl⟩, if_pos ⟨rfl, rfl⟩]
      show JVal.obj (sortPairs l₁) = JVal.obj (sortPairs l₂)
      rw [sortPairs_perm_eq hperm hnd]
  have hS : ∀ f ∈ SignAppend.FIELD_ORDER,
      SignAppend.fieldSel e₁ f = SignAppend.fieldSel e₂ f := by
    intro f _
    by_cases hf : f = "scores"
    · subst hf
      rcases hscores with heq | ⟨l₁, l₂, h1, h2, hperm, hnd⟩
      · unfold SignAppend.fieldSel
        rw [heq]
      · unfold SignAppend.fieldSel
        rw [h1, h2]
        show some ("scores", SignAppend.canonicalValue "scores" (.obj l₁)) =
          some ("scores", SignAppend.canonicalValue "scores" (.obj l₂))
        rw [(hcv l₁ l₂ hperm hnd).1]
    · unfold SignAppend.fieldSel
      rw [hfields f hf]
  have hV : ∀ f ∈ Verify.FIELD_ORDER,
      Verify.fieldSel e₁ f = Verify.fieldSel e₂ f := by
    intro f _
    by_cases hf : f = "scores"
    · subst hf
      rcases hscores with heq | ⟨l₁, l₂, h1, h2, hperm, hnd⟩
      · unfold Verify.fieldSel
        rw [heq]
      · unfold Verify.fieldSel
        rw [h1, h2]
        show some ("scores", Verify.canonicalValue "scores" (.obj l₁)) =
          some ("scores", Verify.canonicalValue "scores" (.obj l₂))
        rw [(hcv l₁ l₂ hperm hnd).2]
    · unfold Verify.fieldSel
      rw [hfields f hf]
  constructor
  · show stringifyObj (SignAppend.canonicalObj e₁) =
      stringifyObj (SignAppend.canonicalObj e₂)
    rw [show SignAppend.canonicalObj e₁ = SignAppend.canonicalObj e₂ from
      filterMap_congr_on hS]
  · show stringifyObj (Verify.canonicalObj e₁) =
      stringifyObj (Verify.canonicalObj e₂)
    rw [show Verify.canonicalObj e₁ = Verify.canonicalObj e₂ from
      filterMap_congr_on hV]

/-- Witness for C5: `entryA` and its reordered variant canonicalize to
byte-identical output on both code paths. -/
theorem claim_C5_witness :
    SignAppend.canonicalize entryA = SignAppend.canonicalize entryAperm ∧
    Verify.canonicalize entryA = Verify.canonicalize entryAperm := by
  have hfields : ∀ f, f ≠ "scores" →
      getField entryA f = getField entryAperm f := by
    intro f hf
    by_cases h1 : "entry_id" = f
    · rw [← h1]; decide
    by_cases h2 : "issued_at" = f
    · rw [← h2]; decide
    by_cases h3 : "subject_type" = f
    · rw [← h3]; decide
    by_cases h4 : "subject_ref" = f
    · rw [← h4]; decide
    by_cases h5 : "policy_version" = f
    · rw [← h5]; decide
    by_cases h6 : "result" = f
    · rw [← h6]; decide
    by_cases h7 : "report_hash" = f
    · rw [← h7]; decide
    have h8 : ¬ ("scores" = f) := fun hh => hf hh.symm
    show getField entryA f = getField entryAperm f
    unfold entryA entryAperm
    simp [getField, h1, h2, h3, h4, h5, h6, h7, h8]
  exact claim_C5 entryA entryAperm hfields
    (Or.inr ⟨[("security", 8), ("repro", 7)], [("repro", 7), ("security", 8)],
      by decide, by decide,
      List.Perm.swap ("repro", 7) ("security", 8) [], by decide⟩)

/-! ## Claim C3 — field order, null handling, scores sorting -/

theorem fieldSel_keys_V (e : Entry) (f : String) (x : String × JVal)
    (h : Verify.fieldSel e f = some x) : x.1 = f := by
  unfold Verify.fieldSel at h
  cases hh : getField e f with
  | none => rw [hh] at h; cases h
  | some v => rw [hh] at h; cases h; rfl

/-- C3, as stated, is false in its "identically on both paths" clause: an
explicitly `null` field is omitted by the signing-path canonicalizer but
kept (serialized as `null`) by the verification-path one, so the two
canonical byte sequences differ. -/
theorem claim_C3_counterexample :
    SignAppend.canonicalize entryNull ≠ Verify.canonicalize entryNull ∧
    ("subject_locator", JVal.null) ∈ Verify.canonicalObj entryNull ∧
    SignAppend.canonicalObj entryNull = [("entry_id", .str "E1")] := by
  refine ⟨by decide, by decide, by decide⟩

/-- C3 (amended): each canonicalizer emits fields in its own fixed explicit
order — the emitted key sequence is a sublist of its `FIELD_ORDER`,
independent of input insertion order — and rewrites a `scores` object with
its keys sorted lexicographically (a sorted permutation of the input).
But the two code paths differ: the signing path includes a field iff it is
present and non-`null` (and uses the extended 40-name order), while the
verification path includes a field iff it is present — an explicit `null`
is kept — (and uses the minimal 10-name order). -/
theorem claim_C3 (e : Entry) :
    ((SignAppend.canonicalObj e).map Prod.fst).Sublist
      SignAppend.FIELD_ORDER ∧
    (∀ f, (∃ w, (f, w) ∈ SignAppend.canonicalObj e) ↔
      (f ∈ SignAppend.FIELD_ORDER ∧
        ∃ v, getField e f = some v ∧ v ≠ .null)) ∧
    (∀ l, getField e "scores" = some (.obj l) →
      ("scores", .obj (sortPairs l)) ∈ SignAppend.canonicalObj e ∧
      ("scores", .obj (sortPairs l)) ∈ Verify.canonicalObj e ∧
      List.Sorted jsLe ((sortPairs l).map Prod.fst) ∧
      ((l.map Prod.fst).Nodup → (sortPairs l).Perm l)) ∧
    ((Verify.canonicalObj e).map Prod.fst).Sublist Verify.FIELD_ORDER ∧
    (∀ f, (∃ w, (f, w) ∈ Verify.canonicalObj e) ↔
      (f ∈ Verify.FIELD_ORDER ∧ getField e f ≠ none)) ∧
    (∀ f, f ∈ Verify.FIELD_ORDER → getField e f = some .null →
      (f, JVal.null) ∈ Verify.canonicalObj e) := by
  refine ⟨filterMap_keys_sublist (fieldSel_keys_S e), ?_, ?_,
    filterMap_keys_sublist (fieldSel_keys_V e), ?_, ?_⟩
  · intro f
    constructor
    · rintro ⟨w, hmem⟩
      unfold SignAppend.canonicalObj at hmem
      rw [List.mem_filterMap] at hmem
      obtain ⟨a, ha, hsel⟩ := hmem
      have haf : f = a := fieldSel_keys_S e a (f, w) hsel
      subst haf
      refine ⟨ha, ?_⟩
      unfold SignAppend.fieldSel at hsel
      cases hh : getField e f with
      | none => rw [hh] at hsel; cases hsel
      | some v =>
        rw [hh] at hsel
        cases v with
        | null => cases hsel
        | str s => exact ⟨.str s, rfl, fun hc => JVal.noConfusion hc⟩
        | num n => exact ⟨.num n, rfl, fun hc => JVal.noConfusion hc⟩
        | arr xs => exact ⟨.arr xs, rfl, fun hc => JVal.noConfusion hc⟩
        | obj kvs => exact ⟨.obj kvs, rfl, fun hc => JVal.noConfusion hc⟩
        | sig m pk => exact ⟨.sig m pk, rfl, fun hc => JVal.noConfusion hc⟩
    · rintro ⟨hf, v, hv, hvn⟩
      refine ⟨SignAppend.canonicalValue f v, ?_⟩
      unfold SignAppend.canonicalObj
      rw [List.mem_filterMap]
      refine ⟨f, hf, ?_⟩
      unfold SignAppend.fieldSel
      rw [hv]
      cases v with
      | null => exact absurd rfl hvn
      | str s => rfl
      | num n => rfl
      | arr xs => rfl
      | obj kvs => rfl
      | sig m pk => rfl
  · intro l hl
    have hval : SignAppend.canonicalValue "scores" (.obj l) =
        .obj (sortPairs l) := by
      unfold SignAppend.canonicalValue
      rw [if_pos ⟨rfl, rfl⟩]
      rfl
    have hvalV : Verify.canonicalValue "scores" (.obj l) =
        .obj (sortPairs l) := by
      unfold Verify.canonicalValue
      rw [if_pos ⟨rfl, rfl⟩]
      rfl
    refine ⟨?_, ?_, sortPairs_sorted l, sortPairs_perm⟩
    · unfold SignAppend.canonicalObj
      rw [List.mem_filterMap]
      refine ⟨"scores", by decide, ?_⟩
      unfold SignAppend.fieldSel
      rw [hl]
      show some ("scores", SignAppend.canonicalValue "scores" (.obj l)) = _
      rw [hval]
    · unfold Verify.canonicalObj
      rw [List.mem_filterMap]
      refine ⟨"scores", by decide, ?_⟩
      unfold Verify.fieldSel
      rw [hl]
      show some ("scores", Verify.canonicalValue "scores" (.obj l)) = _
      rw [hvalV]
  · intro f
    constructor
    · rintro ⟨w, hmem⟩
      unfold Verify.canonicalObj at hmem
      rw [List.mem_filterMap] at hmem
      obtain ⟨a, ha, hsel⟩ := hmem
      have haf : f = a := fieldSel_keys_V e a (f, w) hsel
      subst haf
      refine ⟨ha, ?_⟩
      unfold Verify.fieldSel at hsel
      cases hh : getField e f with
      | none => rw [hh] at hsel; cases hsel
      | some v => exact fun hc => Option.noConfusion hc
    · rintro ⟨hf, hv⟩
      cases hh : getField e f with
      | none => exact absurd hh hv
      | some v =>
        refine ⟨Verify.canonicalValue f v, ?_⟩
        unfold Verify.canonicalObj
        rw [List.mem_filterMap]
        refine ⟨f, hf, ?_⟩
        unfold Verify.fieldSel
        rw [hh]
  · intro f hf hnull
    unfold Verify.canonicalObj
    rw [List.mem_filterMap]
    refine ⟨f, hf, ?_⟩
    unfold Verify.fieldSel
    rw [hnull]
    show some (f, Verify.canonicalValue f .null) = _
    unfold Verify.canonicalValue
    rw [if_neg (fun hc => Bool.noConfusion hc.2)]

/-- Witness for C3 at the spec's concrete scenario entry. -/
theorem claim_C3_witness :
    (("scores", JVal.obj [("repro", 7), ("security", 8)]) ∈
      SignAppend.canonicalObj entryA) ∧
    (("subject_locator", JVal.null) ∈ Verify.canonicalObj entryNull) ∧
    (∃ w, ("entry_id", w) ∈ SignAppend.canonicalObj entryA) := by
  have h := claim_C3 entryA
  have hn := claim_C3 entryNull
  have hsc := (h.2.2.1 [("security", 8), ("repro", 7)] (by decide)).1
  have hsp : sortPairs [("security", 8), ("repro", 7)] =
      [("repro", 7), ("security", 8)] := by decide
  refine ⟨by rw [← hsp]; exact hsc, ?_, ?_⟩
  · exact hn.2.2.2.2.2 "subject_locator" (by decide) (by decide)
  · exact (h.2.1 "entry_id").mpr ⟨by decide, .str "E1", by decide,
      fun hc => JVal.noConfusion hc⟩

/-! ## Claim C4 — tamper detection -/

/-- Once the structural checks pass, the verdict is exactly the signature
check on the verifier's canonical bytes. -/
theorem verifyMain_checked (entry : Entry) (reg : KeysData)
    (rec : KeyRecord) (m : String) (pk : List Nat)
    (hsig : getField entry "signature" = some (.sig m pk))
    (hkid : truthyOpt (getField entry "key_id") = true)
    (hlk : lookupKey reg (jsToString (getField entry "key_id")) = some rec)
    (htype : rec.type = "ed25519") (hpk : rec.publicKey.length = 32) :
    Verify.verifyMain entry reg =
      (if naclVerify (Verify.canonicalize (removeField entry "signature"))
          ⟨m, pk⟩ rec.publicKey
       then .valid (getField entry "entry_id")
         (jsToString (getField entry "key_id"))
         (getField entry "issued_at")
       else .invalidSig (getField entry "entry_id")) := by
  unfold Verify.verifyMain
  have hsigT : truthyOpt (getField entry "signature") = true := by
    rw [hsig]; rfl
  rw [if_neg (by rw [hsigT]; exact fun hh => hh rfl),
    if_neg (by rw [hkid]; exact fun hh => hh rfl)]
  simp only [hlk]
  rw [if_neg (by rw [htype]; exact fun hh => hh rfl)]
  simp only [hsig]
  unfold Verify.verifySignature
  rw [if_neg (by rw [hpk]; exact fun hh => hh rfl)]
  cases hnv : naclVerify (Verify.canonicalize (removeField entry
      "signature")) ⟨m, pk⟩ rec.publicKey with
  | true => rw [if_pos rfl]
  | false => rw [if_neg (fun hh => Bool.noConfusion hh)]

/-- The verifier's verdict depends on the entry only through its
`signature` field and its `getField` view at the minimal field names. -/
theorem verifyMain_congr (e₁ e₂ : Entry) (reg : KeysData)
    (hsig : getField e₁ "signature" = getField e₂ "signature")
    (hobs : ∀ g ∈ Verify.FIELD_ORDER, getField e₁ g = getField e₂ g) :
    Verify.verifyMain e₁ reg = Verify.verifyMain e₂ reg := by
  have hcanon : Verify.canonicalize (removeField e₁ "signature") =
      Verify.canonicalize (removeField e₂ "signature") := by
    show stringifyObj (Verify.canonicalObj _) = stringifyObj _
    rw [canonicalObj_congr_V (removeField e₁ "signature")
      (removeField e₂ "signature") ?_]
    intro g hg
    rw [getField_removeField, getField_removeField]
    by_cases hgs : g = "signature"
    · rw [if_pos hgs, if_pos hgs]
    · rw [if_neg hgs, if_neg hgs, hobs g hg]
  unfold Verify.verifyMain
  rw [hsig, hobs "key_id" (by decide), hcanon, hobs "entry_id" (by decide),
    hobs "issued_at" (by decide)]

/-- Inversion of a `valid` verdict. -/
theorem verifyMain_valid_inv {entry : Entry} {reg : KeysData}
    {eid : Option JVal} {kid : String} {iss : Option JVal}
    (h : Verify.verifyMain entry reg = .valid eid kid iss) :
    ∃ m pk rec, getField entry "signature" = some (.sig m pk) ∧
      truthyOpt (getField entry "key_id") = true ∧
      kid = jsToString (getField entry "key_id") ∧
      lookupKey reg kid = some rec ∧ rec.type = "ed25519" ∧
      rec.publicKey.length = 32 ∧
      m = Verify.canonicalize (removeField entry "signature") ∧
      pk = rec.publicKey ∧ eid = getField entry "entry_id" := by
  unfold Verify.verifyMain at h
  by_cases hsigT : truthyOpt (getField entry "signature") = true
  case neg =>
    rw [if_pos hsigT] at h
    cases h
  rw [if_neg (by rw [hsigT]; exact fun hh => hh rfl)] at h
  by_cases hkid : truthyOpt (getField entry "key_id") = true
  case neg =>
    rw [if_pos hkid] at h
    cases h
  rw [if_neg (by rw [hkid]; exact fun hh => hh rfl)] at h
  cases hlk : lookupKey reg (jsToString (getField entry "key_id")) with
  | none => simp only [hlk] at h; cases h
  | some rec =>
    simp only [hlk] at h
    by_cases htype : rec.type = "ed25519"
    case neg =>
      rw [if_pos htype] at h
      cases h
    rw [if_neg (by rw [htype]; exact fun hh => hh rfl)] at h
    cases hsig : getField entry "signature" with
    | none => rw [hsig] at hsigT; cases hsigT
    | some v =>
      cases v with
      | sig m pk =>
        rw [hsig] at h
        have h2 : (match Verify.verifySignature
            (Verify.canonicalize (removeField entry "signature"))
            ⟨m, pk⟩ rec.publicKey with
          | Except.error msg => Verify.Result.thrown msg
          | Except.ok true => Verify.Result.valid (getField entry "entry_id")
              (jsToString (getField entry "key_id"))
              (getField entry "issued_at")
          | Except.ok false =>
              Verify.Result.invalidSig (getField entry "entry_id")) =
            Verify.Result.valid eid kid iss := h
        unfold Verify.verifySignature at h2
        by_cases hpk : rec.publicKey.length = 32
        case neg =>
          rw [if_pos hpk] at h2
          cases h2
        rw [if_neg (by rw [hpk]; exact fun hh => hh rfl)] at h2
        cases hnv : naclVerify (Verify.canonicalize (removeField entry
            "signature")) ⟨m, pk⟩ rec.publicKey with
        | false =>
          rw [hnv] at h2
          cases h2
        | true =>
          rw [hnv] at h2
          cases h2
          have hand := of_decide_eq_true hnv
          exact ⟨m, pk, rec, rfl, hkid, rfl, hlk, htype, hpk,
            hand.1, hand.2, rfl⟩
      | null =>
        rw [hsig] at h
        have h2 : Verify.Result.thrown
            "Invalid signature length: expected 64 bytes" =
            Verify.Result.valid eid kid iss := h
        cases h2
      | str s =>
        rw [hsig] at h
        have h2 : Verify.Result.thrown
            "Invalid signature length: expected 64 bytes" =
            Verify.Result.valid eid kid iss := h
        cases h2
      | num n =>
        rw [hsig] at h
        have h2 : Verify.Result.thrown
            "Invalid signature length: expected 64 bytes" =
            Verify.Result.valid eid kid iss := h
        cases h2
      | arr xs =>
        rw [hsig] at h
        have h2 : Verify.Result.thrown
            "Invalid signature length: expected 64 bytes" =
            Verify.Result.valid eid kid iss := h
        cases h2
      | obj kvs =>
        rw [hsig] at h
        have h2 : Verify.Result.thrown
            "Invalid signature length: expected 64 bytes" =
            Verify.Result.valid eid kid iss := h
        cases h2

/-- Modifying one string-valued minimal-order field changes the verifier's
canonical bytes. -/
theorem canonicalizeV_single_diff (e : Entry) (f : String) (s s' : String)
    (hmem : f ∈ Verify.FIELD_ORDER) (hget : getField e f = some (.str s))
    (hne : s ≠ s') :
    Verify.canonicalize (removeField (setField e f (.str s')) "signature") ≠
      Verify.canonicalize (removeField e "signature") := by
  have hfsig : f ≠ "signature" := by
    intro hh
    subst hh
    revert hmem
    decide
  have hordsig : ∀ a ∈ Verify.FIELD_ORDER, a ≠ "signature" := by decide
  have hagree : ∀ a ∈ Verify.FIELD_ORDER, a ≠ f →
      Verify.fieldSel (removeField (setField e f (.str s')) "signature") a =
      Verify.fieldSel (removeField e "signature") a := by
    intro a ha hane
    unfold Verify.fieldSel
    rw [getField_removeField, getField_removeField,
      if_neg (hordsig a ha), if_neg (hordsig a ha),
      getField_setField_other _ _ _ _ hane]
  have hx : Verify.fieldSel (removeField (setField e f (.str s'))
      "signature") f = some (f, .str s') := by
    unfold Verify.fieldSel
    rw [getField_removeField, if_neg hfsig, getField_setField_same]
    show some (f, Verify.canonicalValue f (.str s')) = _
    rw [canonicalValue_str_V]
  have hx' : Verify.fieldSel (removeField e "signature") f =
      some (f, .str s) := by
    unfold Verify.fieldSel
    rw [getField_removeField, if_neg hfsig, hget]
    show some (f, Verify.canonicalValue f (.str s)) = _
    rw [canonicalValue_str_V]
  obtain ⟨A, B, hA, hB⟩ := filterMap_single_diff (by decide) hmem hagree hx hx'
  show stringifyObj (Verify.canonicalObj _) ≠ stringifyObj (Verify.canonicalObj _)
  unfold Verify.canonicalObj
  rw [hA, hB]
  exact stringifyObj_single_diff (fun hh => hne (quoteStr_injective hh).symm)

/-- C4 (amended): a single-byte change to a payload field outside the
verifier's minimal field order (and other than `signature`) leaves the
verification verdict — including `Valid` — entirely unchanged, so such
tampering is undetected; a change to the value of a string-valued field
inside the minimal order other than `key_id` turns a `Valid` sealed entry
into `SignatureMismatch`. -/
theorem claim_C4 (e : Entry) (reg : KeysData) (f : String) :
    (∀ v', f ∉ Verify.FIELD_ORDER → f ≠ "signature" →
      Verify.verifyMain (setField e f v') reg = Verify.verifyMain e reg) ∧
    (∀ (s s' : String) (eid : Option JVal) (kid : String) (iss : Option JVal),
      f ∈ Verify.FIELD_ORDER → f ≠ "key_id" →
      getField e f = some (.str s) → s ≠ s' →
      Verify.verifyMain e reg = .valid eid kid iss →
      Verify.verifyMain (setField e f (.str s')) reg =
        .invalidSig (getField (setField e f (.str s')) "entry_id")) := by
  constructor
  · intro v' hnot hfsig
    apply verifyMain_congr
    · exact getField_setField_other _ _ _ _ (fun hh => hfsig hh.symm)
    · intro g hg
      exact getField_setField_other _ _ _ _
        (fun hh => hnot (hh ▸ hg))
  · intro s s' eid kid iss hmem hfkid hget hsne hvalid
    obtain ⟨m, pk, rec, hsig, hkid, hkidEq, hlk, htype, hpklen, hm, hpk,
      heid⟩ := verifyMain_valid_inv hvalid
    have hfsig : f ≠ "signature" := by
      intro hh
      subst hh
      revert hmem
      decide
    have hsig' : getField (setField e f (.str s')) "signature" =
        some (.sig m pk) := by
      rw [getField_setField_other _ _ _ _ (fun hh => hfsig hh.symm), hsig]
    have hkid' : getField (setField e f (.str s')) "key_id" =
        getField e "key_id" :=
      getField_setField_other _ _ _ _ (fun hh => hfkid hh.symm)
    have hchecked := verifyMain_checked (setField e f (.str s')) reg rec m pk
      hsig' (by rw [hkid']; exact hkid)
      (by rw [hkid', ← hkidEq]; exact hlk) htype hpklen
    have hcanonNe := canonicalizeV_single_diff e f s s' hmem hget hsne
    have hfalse : ¬ (naclVerify (Verify.canonicalize
        (removeField (setField e f (.str s')) "signature")) ⟨m, pk⟩
        rec.publicKey = true) := by
      intro hh
      have hand := of_decide_eq_true hh
      exact hcanonNe (hand.1.symm.trans hm)
    rw [hchecked, if_neg hfalse]

/-- C4, as stated, is false: `sealedTagged` verifies `Valid`, and after a
change to its `tags` payload field the modified entry still verifies
`Valid` — the verifier's canonicalization silently drops fields outside
its minimal field order, so the tampering goes undetected. -/
theorem claim_C4_counterexample :
    Verify.verifyMain sealedTagged regA =
      .valid (some (.str "E1")) "K1"
        (some (.str "2026-02-01T05:00:00.000Z")) ∧
    getField (setField sealedTagged "tags" (.arr ["zz"])) "tags" ≠
      getField sealedTagged "tags" ∧
    Verify.verifyMain (setField sealedTagged "tags" (.arr ["zz"])) regA =
      .valid (some (.str "E1")) "K1"
        (some (.str "2026-02-01T05:00:00.000Z")) := by
  refine ⟨by decide, by decide, by decide⟩

/-- Witness for C4: changing a field outside the minimal order leaves the
verdict unchanged; changing `subject_ref` of a `Valid` sealed entry yields
the signature-failure report. -/
theorem claim_C4_witness :
    Verify.verifyMain (setField minSealed "business_ein" (.str "x")) regA =
      Verify.verifyMain minSealed regA ∧
    Verify.verifyMain (setField minSealed "subject_ref" (.str "abx")) regA =
      .invalidSig (getField (setField minSealed "subject_ref" (.str "abx"))
        "entry_id") := by
  constructor
  · exact (claim_C4 minSealed regA "business_ein").1 (.str "x")
      (by decide) (by decide)
  · exact (claim_C4 minSealed regA "subject_ref").2 "abc" "abx"
      (some (.str "E1")) "K1" (some (.str "2026-02-01T05:00:00.000Z"))
      (by decide) (by decide) (by decide) (by decide) (by decide)

/-! ## Claim C1 — sign-then-verify round trip -/

theorem getField_mem (e : Entry) (f : String) (v : JVal)
    (h : getField e f = some v) : (f, v) ∈ e := by
  induction e with
  | nil => cases h
  | cons kv rest ih =>
    obtain ⟨k, w⟩ := kv
    by_cases hk : k = f
    · rw [getField, if_pos hk] at h
      cases h
      rw [hk]
      exact List.mem_cons_self _ _
    · rw [getField, if_neg hk] at h
      exact List.mem_cons_of_mem _ (ih h)

/-- C1, as stated, is false: the schema-valid entry `payTagged` is signed
successfully by `sign-and-append.mjs` (whose canonicalization includes
`tags`), but verifying the sealed entry with `verify.mjs` (whose
canonicalization drops `tags`) reports a signature failure, not Valid. -/
theorem claim_C1_counterexample :
    SignAppend.main payTagged regA seedA emptyState =
      .ok (p2T, sigT, storeAppend emptyState p2T sigT) ∧
    Verify.verifyMain (setField p2T "signature" (.sig sigT.msg sigT.pk))
        regA = .invalidSig (some (.str "E1")) := by
  refine ⟨by rfl, by decide⟩

/-- C1 (amended): for an entry confined to the verifier's minimal field
set, free of `null` values, with no `key_id` (the signer stamps the active
one) and a truthy `report_hash`, against a registry whose active key is a
32-byte ed25519 record matching the resolved private key, a schema-valid
payload is signed successfully and the sealed entry verifies `Valid`.
Entries carrying extended fields fail the round trip (see the
counterexample): the signer canonicalizes them into the signed bytes while
the verifier's canonicalization omits them. -/
theorem claim_C1 (payload : Entry) (reg : KeysData) (kb sk : List Nat)
    (rec : KeyRecord) (st : LedgerState)
    (hmin : ∀ f v, getField payload f = some v → f ∈ Verify.FIELD_ORDER)
    (hnull : ∀ f, getField payload f ≠ some .null)
    (hkidnone : getField payload "key_id" = none)
    (hrh : truthyOpt (getField payload "report_hash") = true)
    (hrec : lookupKey reg reg.active = some rec)
    (hrectype : rec.type = "ed25519")
    (hpklen : rec.publicKey.length = 32)
    (hactive : reg.active ≠ "")
    (hsk : SignAppend.resolveSecretKey kb = .ok sk)
    (hskpk : sk.drop 32 = rec.publicKey)
    (hvalid : validateEntry (setField payload "key_id"
      (.str reg.active)) = []) :
    SignAppend.main payload reg kb st =
      .ok (setField payload "key_id" (.str reg.active),
        naclSignDetached (SignAppend.canonicalize (setField payload
          "key_id" (.str reg.active))) sk,
        storeAppend st (setField payload "key_id" (.str reg.active))
          (naclSignDetached (SignAppend.canonicalize (setField payload
            "key_id" (.str reg.active))) sk)) ∧
    Verify.verifyMain (setField (setField payload "key_id"
        (.str reg.active)) "signature"
        (.sig (SignAppend.canonicalize (setField payload "key_id"
          (.str reg.active))) (sk.drop 32))) reg =
      .valid (getField payload "entry_id") reg.active
        (getField payload "issued_at") := by
  have hp2eq : SignAppend.autoReportHash (SignAppend.stampKeyId payload reg)
      = setField payload "key_id" (.str reg.active) := by
    have hp1 : SignAppend.stampKeyId payload reg =
        setField payload "key_id" (.str reg.active) := by
      unfold SignAppend.stampKeyId
      rw [if_neg (by rw [hkidnone]; exact fun hh => Bool.noConfusion hh)]
    rw [hp1]
    unfold SignAppend.autoReportHash
    rw [if_pos (by
      rw [getField_setField_other _ _ _ _ (by decide)]
      rw [hrh])]
  have hmain : SignAppend.main payload reg kb st =
      .ok (setField payload "key_id" (.str reg.active),
        naclSignDetached (SignAppend.canonicalize (setField payload
          "key_id" (.str reg.active))) sk,
        storeAppend st (setField payload "key_id" (.str reg.active))
          (naclSignDetached (SignAppend.canonicalize (setField payload
            "key_id" (.str reg.active))) sk)) := by
    unfold SignAppend.main
    rw [hrec]
    rw [hp2eq]
    rw [if_neg (by rw [hvalid]; exact fun hh => hh rfl)]
    rw [hsk]
  refine ⟨hmain, ?_⟩
  have hkid2 : getField (setField payload "key_id" (.str reg.active))
      "key_id" = some (.str reg.active) := getField_setField_same _ _ _
  have hmin2 : ∀ f v, getField (setField payload "key_id"
      (.str reg.active)) f = some v → f ∈ Verify.FIELD_ORDER := by
    intro f v h
    by_cases hf : f = "key_id"
    · rw [hf]; decide
    · rw [getField_setField_other _ _ _ _ hf] at h
      exact hmin f v h
  have hnull2 : ∀ f, getField (setField payload "key_id"
      (.str reg.active)) f ≠ some .null := by
    intro f
    by_cases hf : f = "key_id"
    · rw [hf, hkid2]
      exact fun hh => JVal.noConfusion (Option.some.inj hh)
    · rw [getField_setField_other _ _ _ _ hf]
      exact hnull f
  have hCeq : SignAppend.canonicalize (setField payload "key_id"
      (.str reg.active)) = Verify.canonicalize (setField payload "key_id"
      (.str reg.active)) := by
    show stringifyObj _ = stringifyObj _
    rw [canonicalObj_minimal _ hmin2 hnull2]
  have hordsig : ∀ a ∈ Verify.FIELD_ORDER, a ≠ "signature" := by decide
  have hsealed : ∀ g ∈ Verify.FIELD_ORDER,
      getField (setField (setField payload "key_id" (.str reg.active))
        "signature" (.sig (SignAppend.canonicalize (setField payload
          "key_id" (.str reg.active))) (sk.drop 32))) g =
      getField (setField payload "key_id" (.str reg.active)) g := by
    intro g hg
    exact getField_setField_other _ _ _ _ (hordsig g hg)
  have hkidsealed : getField (setField (setField payload "key_id"
      (.str reg.active)) "signature" (.sig (SignAppend.canonicalize
        (setField payload "key_id" (.str reg.active))) (sk.drop 32)))
      "key_id" = some (.str reg.active) := by
    rw [hsealed "key_id" (by decide), hkid2]
  have hchecked := verifyMain_checked
    (setField (setField payload "key_id" (.str reg.active)) "signature"
      (.sig (SignAppend.canonicalize (setField payload "key_id"
        (.str reg.active))) (sk.drop 32))) reg rec
    (SignAppend.canonicalize (setField payload "key_id" (.str reg.active)))
    (sk.drop 32)
    (getField_setField_same _ _ _)
    (by rw [hkidsealed]
        simp [truthyOpt, truthy, hactive])
    (by rw [hkidsealed]
        show lookupKey reg reg.active = some rec
        exact hrec)
    hrectype hpklen
  rw [hchecked]
  have hcanonV : Verify.canonicalize (removeField (setField (setField
      payload "key_id" (.str reg.active)) "signature"
      (.sig (SignAppend.canonicalize (setField payload "key_id"
        (.str reg.active))) (sk.drop 32))) "signature") =
      Verify.canonicalize (setField payload "key_id" (.str reg.active)) := by
    show stringifyObj _ = stringifyObj _
    rw [canonicalObj_congr_V _ (setField payload "key_id"
      (.str reg.active)) ?_]
    intro g hg
    rw [getField_removeField, if_neg (hordsig g hg), hsealed g hg]
  have htrue : naclVerify (Verify.canonicalize (removeField (setField
      (setField payload "key_id" (.str reg.active)) "signature"
      (.sig (SignAppend.canonicalize (setField payload "key_id"
        (.str reg.active))) (sk.drop 32))) "signature"))
      ⟨SignAppend.canonicalize (setField payload "key_id"
        (.str reg.active)), sk.drop 32⟩ rec.publicKey = true := by
    apply decide_eq_true
    exact ⟨by rw [hcanonV, hCeq], hskpk⟩
  rw [if_pos htrue]
  rw [hsealed "entry_id" (by decide), hsealed "issued_at" (by decide),
    hkidsealed]
  rw [getField_setField_other payload "key_id" "entry_id" _ (by decide),
    getField_setField_other payload "key_id" "issued_at" _ (by decide)]
  rfl

/-- Witness for C1: the spec's concrete scenario entry round-trips to a
`Valid` report carrying its entry and key identifiers. -/
theorem claim_C1_witness :
    Verify.verifyMain (setField (setField entryA "key_id" (.str "K1"))
        "signature" (.sig (SignAppend.canonicalize (setField entryA
          "key_id" (.str "K1"))) ((seedA ++ seedA).drop 32))) regA =
      .valid (some (.str "E1")) "K1"
        (some (.str "2026-02-01T05:00:00.000Z")) := by
  have hmin : ∀ f v, getField entryA f = some v → f ∈ Verify.FIELD_ORDER := by
    intro f v h
    have hm := getField_mem entryA f v h
    simp only [entryA, List.mem_cons, List.not_mem_nil, or_false,
      Prod.mk.injEq] at hm
    rcases hm with ⟨rfl, _⟩ | ⟨rfl, _⟩ | ⟨rfl, _⟩ | ⟨rfl, _⟩ | ⟨rfl, _⟩ |
      ⟨rfl, _⟩ | ⟨rfl, _⟩ | ⟨rfl, _⟩ <;> decide
  have hnull : ∀ f, getField entryA f ≠ some .null := by
    intro f h
    have hm := getField_mem entryA f .null h
    simp [entryA] at hm
  have h := claim_C1 entryA regA seedA (seedA ++ seedA)
    ⟨"ed25519", seedA⟩ emptyState hmin hnull (by decide) (by decide)
    (by decide) rfl (by decide) (by decide) (by decide) (by decide)
    (by decide)
  exact h.2

end StoneLedger
